import Mathlib

/-!
Verification development for the pick-distinct-colors engine
(src/python/pick_distinct_colors.py).

The source selects k maximally distinct colors from a pool, using ten
interchangeable strategies over indices 0..n-1 of the pool.  We embed the
data model and every strategy shallowly:

* RGB colors are triples of naturals; CIELAB coordinates are triples over an
  abstract linearly ordered field K.  The color-to-Lab conversion and the
  Delta E distance use transcendental real arithmetic in the source
  (powers 2.4, cube roots, square roots), so the strategy embeddings are
  parametrized by the conversion toLab and the distance dE; the genuine
  real-valued adapter rgb_to_lab / delta_e is defined separately over the
  reals and shown to satisfy the metric facts the generic theorems assume.
* Randomness in the source flows through the global random module
  (randint, random, choice, sample).  Each strategy embedding takes an
  oracle recording the values of those draws; randint draws in 0..m-1 are
  modeled as an oracle value reduced modulo m.
* Fitness (minimum pairwise distance) starts at float inf in the source and
  running bests start at -inf, so fitness lives in WithTop K and running
  bests in Option or WithBot (WithTop K).
* Python list.sort is stable, as is List.insertionSort, so sorting with the
  same total preorder yields the same list.
-/

/-- RGB color: a triple of 8-bit channel values, modeled as naturals. -/
abbrev ColorT : Type := ℕ × ℕ × ℕ

/-- A CIELAB coordinate triple over an ordered field K. -/
abbrev LabT (K : Type) : Type := K × K × K

/-! ## The real metric-space adapter (rgb_to_lab and delta_e of the source) -/

/-- Gamma correction step of rgb_to_lab: linear below the threshold,
power law above. -/
noncomputable def gammaCorrect (c : ℝ) : ℝ :=
  if c > 0.04045 then ((c + 0.055) / 1.055) ^ (2.4 : ℝ) else c / 12.92

/-- The piecewise cube-root-like nonlinearity of rgb_to_lab. -/
noncomputable def labF (t : ℝ) : ℝ :=
  if t > 0.008856 then t ^ ((1 : ℝ) / 3) else 7.787 * t + 16 / 116

/-- rgb_to_lab of the source: normalize channels to the unit interval,
gamma-correct, apply the fixed linear transform to XYZ, normalize by the
D65 white point, apply the nonlinearity, and combine into L, a, b. -/
noncomputable def rgb_to_lab (rgb : ColorT) : LabT ℝ :=
  let r0 : ℝ := (rgb.1 : ℝ) / 255
  let g0 : ℝ := (rgb.2.1 : ℝ) / 255
  let b0 : ℝ := (rgb.2.2 : ℝ) / 255
  let r := gammaCorrect r0
  let g := gammaCorrect g0
  let b := gammaCorrect b0
  let x := (r * 0.4124 + g * 0.3576 + b * 0.1805) * 100 / 95.047
  let y := (r * 0.2126 + g * 0.7152 + b * 0.0722) * 100 / 100
  let z := (r * 0.0193 + g * 0.1192 + b * 0.9505) * 100 / 108.883
  let fx := labF x
  let fy := labF y
  let fz := labF z
  (116 * fy - 16, 500 * (fx - fy), 200 * (fy - fz))

/-- delta_e of the source: CIE76, the Euclidean distance of Lab triples. -/
noncomputable def delta_e (a b : LabT ℝ) : ℝ :=
  Real.sqrt ((a.1 - b.1) ^ 2 + (a.2.1 - b.2.1) ^ 2 + (a.2.2 - b.2.2) ^ 2)

/-! ## Python modeling primitives -/

/-- random.choice l: an oracle value i picks the element at position
i mod length.  Every in-range draw is representable; d is a dead default
for the empty list (where the source would raise). -/
def pyChoice {α : Type} (l : List α) (d : α) (i : ℕ) : α :=
  l.getD (i % l.length) d

/-- l.pop(i): return the element at position i and the list without it. -/
def pyPop {α : Type} (l : List α) (d : α) (i : ℕ) : α × List α :=
  (l.getD i d, l.eraseIdx i)

/-- list(set(l)) for small keys: a deterministic deduplication keeping first
occurrences (the CPython iteration order of an int set is deterministic but
hash-table dependent; only determinism and the element set matter here). -/
def pyDedup {α : Type} [DecidableEq α] (l : List α) : List α :=
  l.foldl (fun acc x => if x ∈ acc then acc else acc ++ [x]) []

/-- All ordered position pairs i < j of a list, as value pairs, in the
iteration order of the nested loops of the source fitness functions. -/
def allPairs {α : Type} : List α → List (α × α)
  | [] => []
  | x :: xs => xs.map (fun y => (x, y)) ++ allPairs xs

/-- Lexicographically ordered k-combinations, as produced by
itertools.combinations. -/
def combos {α : Type} : ℕ → List α → List (List α)
  | 0, _ => [[]]
  | _ + 1, [] => []
  | k + 1, x :: xs => (combos k xs).map (fun c => x :: c) ++ combos (k + 1) xs

section Core

variable {K : Type} [LinearOrderedField K]

/-- lab_colors[i] with a dead default for out-of-range indices. -/
def labAt (labs : List (LabT K)) (i : ℕ) : LabT K :=
  labs.getD i (0, 0, 0)

/-- calculate_fitness of the source: the minimum pairwise distance of the
selected indices, folded from float inf over all position pairs i < j. -/
def calcMin (labs : List (LabT K)) (dE : LabT K → LabT K → K)
    (sel : List ℕ) : WithTop K :=
  ((allPairs sel).map
    (fun p => ((dE (labAt labs p.1) (labAt labs p.2) : K) : WithTop K))).foldl
    min ⊤

/-- One step of the exact_minimum fold: keep the new combination when its
minimum pairwise distance strictly beats the best so far (None plays the
role of the initial -inf best). -/
def exactStep (labs : List (LabT K)) (dE : LabT K → LabT K → K)
    (acc : Option (List ℕ × WithTop K)) (c : List ℕ) :
    Option (List ℕ × WithTop K) :=
  match acc with
  | none => some (c, calcMin labs dE c)
  | some (b, bf) =>
      if bf < calcMin labs dE c then some (c, calcMin labs dE c)
      else some (b, bf)

/-- exact_minimum of the source: enumerate every k-combination of
0..n-1 in lexicographic order and keep the one with the largest minimum
pairwise distance (first strict improvement wins ties). -/
def exactCore (labs : List (LabT K)) (dE : LabT K → LabT K → K)
    (n k : ℕ) : Option (List ℕ × WithTop K) :=
  (combos k (List.range n)).foldl (exactStep labs dE) none

/-- The exact_minimum fold once the accumulator is populated: a total
fold on pairs that keeps strict improvements. -/
def exactRun (labs : List (LabT K)) (dE : LabT K → LabT K → K)
    (L : List (List ℕ)) (p : List ℕ × WithTop K) : List ℕ × WithTop K :=
  L.foldl
    (fun q c => if q.2 < calcMin labs dE c then (c, calcMin labs dE c) else q) p

/-- A computable stand-in distance for concrete witnesses: squared Euclidean
distance over the rationals (symmetric, nonnegative, zero on the diagonal,
like delta_e). -/
def qDE (a b : LabT ℚ) : ℚ :=
  (a.1 - b.1) ^ 2 + (a.2.1 - b.2.1) ^ 2 + (a.2.2 - b.2.2) ^ 2

/-- Casting a color to a rational Lab triple: a concrete conversion used by
witnesses. -/
def qToLab (c : ColorT) : LabT ℚ :=
  ((c.1 : ℚ), (c.2.1 : ℚ), (c.2.2 : ℚ))

/-! ### Strategy configuration and randomness oracles -/

/-- settings of the source: one dict read with per-key defaults; modeled as
one structure holding every recognized key with its default. -/
structure Settings (K : Type) [LinearOrderedField K] where
  initialTemp : K := 1000
  coolingRate : K := 995 / 1000
  minTemp : K := 1 / 10
  populationSize : ℕ := 100
  generations : ℕ := 100
  mutationRate : K := 1 / 10
  numParticles : ℕ := 30
  iterations : ℕ := 100
  inertiaWeight : K := 7 / 10
  cognitiveWeight : K := 3 / 2
  socialWeight : K := 3 / 2
  numAnts : ℕ := 20
  evaporationRate : K := 1 / 10
  pheromoneImportance : ℕ := 1
  heuristicImportance : ℕ := 2
  maxIterations : ℕ := 1000
  tabuTenure : ℕ := 5

/-- Random draws consumed by kmeans_plus_plus_selection: the first randint,
one random() per added center, and one random.choice per zero-total
fallback, indexed by the current selection size. -/
structure KmOracle (K : Type) where
  first : ℕ
  draw : ℕ → K
  fallback : ℕ → ℕ

/-! ### Shared selection primitives of the strategy loops -/

/-- The argmax scan shared by the greedy-style loops: best index starts at
position 0 with score -inf, and each enumerated candidate with a strictly
larger score replaces it (first maximum wins). -/
def scanBest {γ : Type} [LinearOrder γ] (cand : List ℕ) (score : ℕ → γ) : ℕ :=
  (cand.enum.foldl
    (fun acc p =>
      if acc.2 < ((score p.2 : γ) : WithBot γ) then (p.1, ((score p.2 : γ) : WithBot γ))
      else acc)
    ((0 : ℕ), (⊥ : WithBot γ))).1

/-- calculate_min_distance of greedy_selection: float inf when nothing is
selected yet, else the minimum distance to a selected index. -/
def minDistTo (labs : List (LabT K)) (dE : LabT K → LabT K → K)
    (idx : ℕ) (selected : List ℕ) : WithTop K :=
  (selected.map (fun s => ((dE (labAt labs idx) (labAt labs s) : K) : WithTop K))).foldl
    min ⊤

/-- calculate_total_distance of max_sum_distances_sequential: the sum of
distances to the already selected indices. -/
def sumDistTo (labs : List (LabT K)) (dE : LabT K → LabT K → K)
    (idx : ℕ) (selected : List ℕ) : K :=
  (selected.map (fun s => dE (labAt labs idx) (labAt labs s))).sum

/-! ### Greedy (max-min) -/

/-- The while loop of greedy_selection: pop the available index whose
minimum distance to the selection is largest, until k are selected. -/
def greedyLoop (labs : List (LabT K)) (dE : LabT K → LabT K → K) (k : ℕ) :
    ℕ → List ℕ → List ℕ → List ℕ
  | 0, selected, _ => selected
  | fuel + 1, selected, available =>
    if selected.length < k then
      let bi := scanBest available (fun idx => minDistTo labs dE idx selected)
      let pr := pyPop available 0 bi
      greedyLoop labs dE k fuel (selected ++ [pr.1]) pr.2
    else selected

/-- greedy_selection of the source on indices: a uniformly random first
index (the randint draw, reduced mod n), then the greedy loop. -/
def greedyCore (labs : List (LabT K)) (dE : LabT K → LabT K → K)
    (n k first : ℕ) : List ℕ :=
  let pr := pyPop (List.range n) 0 (first % n)
  greedyLoop labs dE k k [pr.1] pr.2

/-! ### Max-sum global and sequential -/

/-- max_sum_distances_global of the source on indices: rank every index by
its total distance to all other pool members (stable sort, descending),
take the top k. -/
def maxSumGlobalCore (labs : List (LabT K)) (dE : LabT K → LabT K → K)
    (n k : ℕ) : List ℕ :=
  let totals := (List.range n).map
    (fun i => (i, (((List.range n).filter (fun j => j != i)).map
      (fun j => dE (labAt labs i) (labAt labs j))).sum))
  let sorted := List.insertionSort (fun a b => b.2 ≤ a.2) totals
  (sorted.take k).map (fun p => p.1)

/-- The while loop of max_sum_distances_sequential. -/
def maxSumSeqLoop (labs : List (LabT K)) (dE : LabT K → LabT K → K) (k : ℕ) :
    ℕ → List ℕ → List ℕ → List ℕ
  | 0, selected, _ => selected
  | fuel + 1, selected, available =>
    if selected.length < k then
      let bi := scanBest available (fun idx => sumDistTo labs dE idx selected)
      let pr := pyPop available 0 bi
      maxSumSeqLoop labs dE k fuel (selected ++ [pr.1]) pr.2
    else selected

/-- max_sum_distances_sequential of the source on indices. -/
def maxSumSeqCore (labs : List (LabT K)) (dE : LabT K → LabT K → K)
    (n k first : ℕ) : List ℕ :=
  let pr := pyPop (List.range n) 0 (first % n)
  maxSumSeqLoop labs dE k k [pr.1] pr.2

/-! ### K-means++ seeding -/

/-- min_distance_to_centers of the source (the call sites always pass a
nonempty center list; the nil branch is dead). -/
def minDistToCenters (labs : List (LabT K)) (dE : LabT K → LabT K → K)
    (idx : ℕ) (centers : List ℕ) : K :=
  match centers.map (fun c => dE (labAt labs idx) (labAt labs c)) with
  | [] => 0
  | x :: xs => xs.foldl min x

/-- The distance table built before each k-means++ roulette draw: zero at
already selected indices, squared minimum distance elsewhere. -/
def kmDistances (labs : List (LabT K)) (dE : LabT K → LabT K → K)
    (n : ℕ) (selected : List ℕ) : List K :=
  (List.range n).map (fun i =>
    if i ∈ selected then 0
    else minDistToCenters labs dE i selected * minDistToCenters labs dE i selected)

/-- The roulette-wheel while loop of kmeans_plus_plus_selection, verbatim:
subtract weights at unselected positions and advance while the remaining
draw stays positive.  Note that it returns the raw position, which the
caller appends without checking membership. -/
def kmRouletteLoop (selected : List ℕ) (distances : List K) :
    ℕ → K → ℕ → ℕ
  | 0, _, selIdx => selIdx
  | fuel + 1, rv, selIdx =>
    if 0 < rv ∧ selIdx < distances.length then
      let rv2 := if selIdx ∈ selected then rv else rv - distances.getD selIdx 0
      if 0 < rv2 then kmRouletteLoop selected distances fuel rv2 (selIdx + 1)
      else selIdx
    else selIdx

/-- One added center of kmeans_plus_plus_selection: uniform fallback when
all squared distances vanish, roulette wheel otherwise. -/
def kmStep (labs : List (LabT K)) (dE : LabT K → LabT K → K)
    (n : ℕ) (o : KmOracle K) (selected : List ℕ) : ℕ :=
  let distances := kmDistances labs dE n selected
  let total := distances.sum
  if total = 0 then
    pyChoice ((List.range n).filter (fun i => decide (i ∉ selected))) 0
      (o.fallback selected.length)
  else
    kmRouletteLoop selected distances (n + 1) (o.draw selected.length * total) 0

/-- The while loop of kmeans_plus_plus_selection. -/
def kmGrow (labs : List (LabT K)) (dE : LabT K → LabT K → K)
    (n k : ℕ) (o : KmOracle K) : ℕ → List ℕ → List ℕ
  | 0, selected => selected
  | fuel + 1, selected =>
    if selected.length < k then
      kmGrow labs dE n k o fuel (selected ++ [kmStep labs dE n o selected])
    else selected

/-- kmeans_plus_plus_selection of the source on indices. -/
def kmeansCore (labs : List (LabT K)) (dE : LabT K → LabT K → K)
    (n k : ℕ) (o : KmOracle K) : List ℕ :=
  kmGrow labs dE n k o k [o.first % n]

/-! ### Tabu Search -/

/-- The mutable state of tabu_search between iterations. -/
structure TabuState (K : Type) where
  current : List ℕ
  best : List ℕ
  bestF : WithBot (WithTop K)
  tabu : List ((ℕ × ℕ) × ℕ)

/-- Lookup in the tabu dict; keys are the (old index, new index) pairs that
the source encodes as strings. -/
def tabuLookup (t : List ((ℕ × ℕ) × ℕ)) (key : ℕ × ℕ) : Option ℕ :=
  (t.find? (fun e => decide (e.1 = key))).map (fun e => e.2)

/-- Dict assignment: replace any binding of the key, keeping one binding per
key (iteration order of the dict is never observed, only lookups and
deletions). -/
def tabuInsert (t : List ((ℕ × ℕ) × ℕ)) (key : ℕ × ℕ) (v : ℕ) :
    List ((ℕ × ℕ) × ℕ) :=
  (t.filter (fun e => decide (e.1 ≠ key))) ++ [(key, v)]

/-- The tabu admission test of the source:
move_key not in tabu_list or tabu_list[move_key] <= iteration. -/
def tabuFree (t : List ((ℕ × ℕ) × ℕ)) (key : ℕ × ℕ) (it : ℕ) : Bool :=
  match tabuLookup t key with
  | none => true
  | some v => decide (v ≤ it)

/-- The neighborhood scan of one tabu_search iteration: examine every swap
of a selected position i with an unselected index j, accept it as the new
best neighbor when it strictly improves on the best neighbor so far and is
not tabu, or when it strictly beats the global best fitness (aspiration,
which the source checks as a plain disjunct). -/
def tabuScan (labs : List (LabT K)) (dE : LabT K → LabT K → K)
    (n k : ℕ) (current : List ℕ) (bestF : WithBot (WithTop K))
    (tabu : List ((ℕ × ℕ) × ℕ)) (it : ℕ) :
    Option (List ℕ) × WithBot (WithTop K) :=
  (List.range k).foldl
    (fun acc i =>
      (List.range n).foldl
        (fun acc2 j =>
          if j ∈ current then acc2
          else
            let fit : WithBot (WithTop K) :=
              ((calcMin labs dE (current.set i j) : WithTop K) : WithBot (WithTop K))
            if (acc2.2 < fit ∧ tabuFree tabu (current.getD i 0, j) it = true) ∨
                bestF < fit
            then (some (current.set i j), fit) else acc2)
        acc)
    (none, ⊥)

/-- One iteration of tabu_search: apply the best neighbor (stop when there
is none), update the global best, then record the tabu keys
(current[i], best[i]) for every position of the new current solution with
expiry iteration + tenure, and drop the expired keys. -/
def tabuStep (labs : List (LabT K)) (dE : LabT K → LabT K → K)
    (n k tenure it : ℕ) (st : TabuState K) : Option (TabuState K) :=
  let scan := tabuScan labs dE n k st.current st.bestF st.tabu it
  match scan.1 with
  | none => none
  | some cur2 =>
    let best2 := if st.bestF < scan.2 then cur2 else st.best
    let bestF2 := if st.bestF < scan.2 then scan.2 else st.bestF
    let tabu2 := (List.range k).foldl
      (fun t i => tabuInsert t (cur2.getD i 0, best2.getD i 0) (it + tenure))
      st.tabu
    some (TabuState.mk cur2 best2 bestF2 (tabu2.filter (fun e => decide (it < e.2))))

/-- The iteration loop of tabu_search. -/
def tabuLoop (labs : List (LabT K)) (dE : LabT K → LabT K → K)
    (n k tenure : ℕ) : ℕ → ℕ → TabuState K → List ℕ
  | 0, _, st => st.best
  | fuel + 1, it, st =>
    match tabuStep labs dE n k tenure it st with
    | none => st.best
    | some st2 => tabuLoop labs dE n k tenure fuel (it + 1) st2

/-- tabu_search of the source on indices: start from the first k pool
indices; no randomness is consumed. -/
def tabuCore (labs : List (LabT K)) (dE : LabT K → LabT K → K)
    (n k : ℕ) (cfg : Settings K) : List ℕ :=
  tabuLoop labs dE n k cfg.tabuTenure cfg.maxIterations 0
    (TabuState.mk (List.range k) (List.range k)
      ((calcMin labs dE (List.range k) : WithTop K) : WithBot (WithTop K)) [])

/-! ### Simulated Annealing -/

/-- Random draws consumed by simulated_annealing, indexed by iteration. -/
structure SaOracle (K : Type) where
  init : List ℕ
  swapIdx : ℕ → ℕ
  choice : ℕ → ℕ
  accept : ℕ → K

/-- The acceptance test
delta > 0 or random() < exp(delta / temperature)
on extended fitness values, following float semantics: delta = inf - inf is
nan and never accepted; delta = +inf is accepted; delta = -inf gives
exp(-inf) = 0 and random() < 0 is false. -/
def saAccept (expF : K → K) (nf cf : WithTop K) (temp rand : K) : Bool :=
  if nf = ⊤ then (if cf = ⊤ then false else true)
  else if cf = ⊤ then false
  else
    decide (0 < WithTop.untop' 0 nf - WithTop.untop' 0 cf ∨
      rand < expF ((WithTop.untop' 0 nf - WithTop.untop' 0 cf) / temp))

/-- The main loop of simulated_annealing: propose a one-index swap with a
uniformly random unselected index, accept per saAccept, track the best
accepted solution, cool the temperature each step, stop at the temperature
floor or after the hardcoded 10000 iterations. -/
def saLoop (labs : List (LabT K)) (dE : LabT K → LabT K → K)
    (n k : ℕ) (cfg : Settings K) (expF : K → K) (o : SaOracle K) :
    ℕ → ℕ → List ℕ → WithTop K → List ℕ → WithTop K → K → List ℕ
  | 0, _, _, _, best, _, _ => best
  | fuel + 1, it, cur, cf, best, bf, temp =>
    if temp ≤ cfg.minTemp then best
    else
      let si := o.swapIdx it % k
      let ni := pyChoice ((List.range n).filter (fun j => decide (j ∉ cur))) 0
        (o.choice it)
      let neigh := cur.set si ni
      let nf := calcMin labs dE neigh
      if saAccept expF nf cf temp (o.accept it) then
        if bf < nf then
          saLoop labs dE n k cfg expF o fuel (it + 1) neigh nf neigh nf
            (temp * cfg.coolingRate)
        else
          saLoop labs dE n k cfg expF o fuel (it + 1) neigh nf best bf
            (temp * cfg.coolingRate)
      else
        saLoop labs dE n k cfg expF o fuel (it + 1) cur cf best bf
          (temp * cfg.coolingRate)

/-- simulated_annealing of the source on indices; the initial solution is
the random.sample draw recorded in the oracle. -/
def saCore (labs : List (LabT K)) (dE : LabT K → LabT K → K)
    (n k : ℕ) (cfg : Settings K) (expF : K → K) (o : SaOracle K) : List ℕ :=
  saLoop labs dE n k cfg expF o 10000 0 o.init (calcMin labs dE o.init)
    o.init (calcMin labs dE o.init) cfg.initialTemp

/-! ### Genetic Algorithm -/

/-- Random draws consumed by genetic_algorithm: the initial samples per
individual, and per (generation, child) the six tournament randints, the
crossover point, the padding choices, the mutation gate, index and pick. -/
structure GaOracle (K : Type) where
  init : ℕ → List ℕ
  tour : ℕ → ℕ → ℕ → ℕ
  cross : ℕ → ℕ → ℕ
  pad : ℕ → ℕ → ℕ → ℕ
  mutGate : ℕ → ℕ → K
  mutIdx : ℕ → ℕ → ℕ
  mutPick : ℕ → ℕ → ℕ

/-- Python max(l, key=f): the first element attaining the maximum key. -/
def maxByKey {γ : Type} [LinearOrder γ] (l : List ℕ) (f : ℕ → γ) : ℕ :=
  match l with
  | [] => 0
  | x :: xs => xs.foldl (fun b i => if f b < f i then i else b) x

/-- Python l.index(max(l)): position and value of the first maximum. -/
def firstMaxIdx {γ : Type} [LinearOrder γ] (d : γ) (l : List γ) : ℕ × γ :=
  match l with
  | [] => (0, d)
  | x :: xs =>
    xs.enum.foldl (fun acc p => if acc.2 < p.2 then (p.1 + 1, p.2) else acc) (0, x)

/-- The child padding loop of genetic_algorithm: append random unused
indices until the child reaches size k. -/
def gaPad (n k : ℕ) (o : GaOracle K) (g c : ℕ) : ℕ → List ℕ → List ℕ
  | 0, child => child
  | fuel + 1, child =>
    if child.length < k then
      gaPad n k o g c fuel
        (child ++ [pyChoice ((List.range n).filter (fun i => decide (i ∉ child))) 0
          (o.pad g c child.length)])
    else child

/-- One child of genetic_algorithm: two size-3 tournaments, prefix-suffix
crossover at a random point followed by deduplication, padding with random
unused indices, truncation to size k, and single-position mutation with
probability mutationRate. -/
def gaChild (n k : ℕ) (cfg : Settings K) (o : GaOracle K)
    (fitnesses : List (WithTop K)) (population : List (List ℕ))
    (g c : ℕ) : List ℕ :=
  let ps := cfg.populationSize
  let t1 := [o.tour g c 0 % ps, o.tour g c 1 % ps, o.tour g c 2 % ps]
  let t2 := [o.tour g c 3 % ps, o.tour g c 4 % ps, o.tour g c 5 % ps]
  let p1 := population.getD (maxByKey t1 (fun i => fitnesses.getD i ⊤)) []
  let p2 := population.getD (maxByKey t2 (fun i => fitnesses.getD i ⊤)) []
  let cp := o.cross g c % k
  let child1 := (gaPad n k o g c k (pyDedup (p1.take cp ++ p2.drop cp))).take k
  if o.mutGate g c < cfg.mutationRate then
    let available := (List.range n).filter (fun i => decide (i ∉ child1))
    if available = [] then child1
    else child1.set (o.mutIdx g c % k) (pyChoice available 0 (o.mutPick g c))
  else child1

/-- One generation of genetic_algorithm: evaluate fitnesses, update the
best individual (first maximum), then build the next population from the
current one. -/
def gaGen (labs : List (LabT K)) (dE : LabT K → LabT K → K)
    (n k : ℕ) (cfg : Settings K) (o : GaOracle K) (g : ℕ)
    (state : List (List ℕ) × List ℕ × WithTop K) :
    List (List ℕ) × List ℕ × WithTop K :=
  let population := state.1
  let fitnesses := population.map (calcMin labs dE)
  let mfi := firstMaxIdx ⊤ fitnesses
  let best2 := if state.2.2 < mfi.2 then population.getD mfi.1 [] else state.2.1
  let bf2 := if state.2.2 < mfi.2 then mfi.2 else state.2.2
  ((List.range cfg.populationSize).map
    (fun c => gaChild n k cfg o fitnesses population g c),
   best2, bf2)

/-- genetic_algorithm of the source on indices, also returning the tracked
best fitness. -/
def gaCore (labs : List (LabT K)) (dE : LabT K → LabT K → K)
    (n k : ℕ) (cfg : Settings K) (o : GaOracle K) : List ℕ × WithTop K :=
  let population := (List.range cfg.populationSize).map o.init
  let best0 := population.headD []
  let final := (List.range cfg.generations).foldl
    (fun st g => gaGen labs dE n k cfg o g st)
    (population, best0, calcMin labs dE best0)
  (final.2.1, final.2.2)

/-! ### Particle Swarm -/

/-- Random draws consumed by particle_swarm_optimization: initial samples
per particle and, per (iteration, particle, slot), the two unused velocity
draws r1 and r2, the 50 percent exploration gate, and the choice pick. -/
structure PsoOracle (K : Type) where
  init : ℕ → List ℕ
  r1 : ℕ → ℕ → ℕ → K
  r2 : ℕ → ℕ → ℕ → K
  gate : ℕ → ℕ → ℕ → K
  pick : ℕ → ℕ → ℕ → ℕ

/-- A particle of particle_swarm_optimization; the velocity list is
initialized to zeros and never updated, exactly as in the source. -/
structure Particle (K : Type) where
  position : List ℕ
  velocity : List K
  bestPos : List ℕ
  bestFit : WithTop K

/-- The per-slot position update: draw r1 and r2 (unused, as in the
source), then with probability one half replace the slot with a random
index outside the current position. -/
def psoSlotUpdate (n : ℕ) (o : PsoOracle K) (it p : ℕ)
    (pos : List ℕ) (i : ℕ) : List ℕ :=
  let _r1 := o.r1 it p i
  let _r2 := o.r2 it p i
  if o.gate it p i < 1 / 2 then
    let available := (List.range n).filter (fun j => decide (j ∉ pos))
    if available = [] then pos
    else pos.set i (pyChoice available 0 (o.pick it p i))
  else pos

/-- One iteration of particle_swarm_optimization: per particle in order,
evaluate fitness, update the particle best and (nested inside that update)
the global best, then update every position slot in order. -/
def psoIter (labs : List (LabT K)) (dE : LabT K → LabT K → K)
    (n k : ℕ) (o : PsoOracle K) (it : ℕ)
    (state : List (Particle K) × List ℕ × WithTop K) :
    List (Particle K) × List ℕ × WithTop K :=
  let folded := state.1.enum.foldl
    (fun acc pp =>
      let part := pp.2
      let fit := calcMin labs dE part.position
      let pbUpd := part.bestFit < fit
      let part2 : Particle K :=
        if pbUpd then
          Particle.mk part.position part.velocity part.position fit
        else part
      let gb2 := if pbUpd ∧ acc.2.2 < fit then (part.position, fit) else acc.2
      let newPos := (List.range k).foldl (psoSlotUpdate n o it pp.1) part2.position
      (acc.1 ++ [Particle.mk newPos part2.velocity part2.bestPos part2.bestFit],
       gb2))
    (([] : List (Particle K)), state.2)
  (folded.1, folded.2.1, folded.2.2)

/-- particle_swarm_optimization of the source on indices, also returning
the global best fitness.  The inertia, cognitive and social weights are
read from the settings exactly as in the source and never used. -/
def psoCore (labs : List (LabT K)) (dE : LabT K → LabT K → K)
    (n k : ℕ) (cfg : Settings K) (o : PsoOracle K) : List ℕ × WithTop K :=
  let _w := cfg.inertiaWeight
  let _c1 := cfg.cognitiveWeight
  let _c2 := cfg.socialWeight
  let particles0 := (List.range cfg.numParticles).map (fun p =>
    Particle.mk (o.init p) (List.replicate k 0) (o.init p)
      (calcMin labs dE (o.init p)))
  let first := particles0.headD (Particle.mk [] [] [] ⊤)
  let gInit := particles0.foldl
    (fun acc part => if acc.2 < part.bestFit then (part.bestPos, part.bestFit) else acc)
    (first.bestPos, first.bestFit)
  let final := (List.range cfg.iterations).foldl
    (fun st it => psoIter labs dE n k o it st)
    (particles0, gInit.1, gInit.2)
  (final.2.1, final.2.2)

/-! ### Ant Colony -/

/-- Random draws consumed by ant_colony_optimization: per (iteration, ant)
the first randint, per build step the roulette draw and the zero-total
fallback choice, and the final random.sample fallback when no complete tour
was ever found. -/
structure AcoOracle (K : Type) where
  first : ℕ → ℕ → ℕ
  draw : ℕ → ℕ → ℕ → K
  fallbackPick : ℕ → ℕ → ℕ → ℕ
  finalSample : List ℕ

/-- min(distances[i][j] for j in solution) if solution else 1, the
heuristic factor of the ant construction step. -/
def minOr1 (labs : List (LabT K)) (dE : LabT K → LabT K → K)
    (i : ℕ) (solution : List ℕ) : K :=
  match solution.map (fun j => dE (labAt labs i) (labAt labs j)) with
  | [] => 1
  | x :: xs => xs.foldl min x

/-- The roulette-wheel while loop of the ant construction step. -/
def acoRouletteLoop (probs : List K) : ℕ → K → ℕ → ℕ
  | 0, _, selIdx => selIdx
  | fuel + 1, rv, selIdx =>
    if 0 < rv ∧ selIdx < probs.length then
      let rv2 := rv - probs.getD selIdx 0
      if 0 < rv2 then acoRouletteLoop probs fuel rv2 (selIdx + 1)
      else selIdx
    else selIdx

/-- One construction step of an ant: weight every available index by
pheromone^alpha times heuristic^beta, then roulette-select (clamping the
final position into range, as the source does), or choose uniformly when
all weights vanish. -/
def acoPickNext (labs : List (LabT K)) (dE : LabT K → LabT K → K)
    (cfg : Settings K) (phers : List K) (o : AcoOracle K)
    (it ant step : ℕ) (solution available : List ℕ) : ℕ :=
  let probs := available.map (fun i =>
    (phers.getD i 0) ^ cfg.pheromoneImportance *
      (minOr1 labs dE i solution) ^ cfg.heuristicImportance)
  if probs.sum = 0 then pyChoice available 0 (o.fallbackPick it ant step)
  else
    available.getD
      (min (acoRouletteLoop probs (probs.length + 1) (o.draw it ant step * probs.sum) 0)
        (available.length - 1)) 0

/-- The tour construction loop of one ant. -/
def acoBuild (labs : List (LabT K)) (dE : LabT K → LabT K → K)
    (cfg : Settings K) (phers : List K) (o : AcoOracle K)
    (it ant k : ℕ) : ℕ → List ℕ → List ℕ → List ℕ
  | 0, solution, _ => solution
  | fuel + 1, solution, available =>
    if solution.length < k ∧ available ≠ [] then
      let nxt := acoPickNext labs dE cfg phers o it ant solution.length solution
        available
      acoBuild labs dE cfg phers o it ant k fuel (solution ++ [nxt])
        (available.erase nxt)
    else solution

/-- One full tour of one ant: uniformly random first index, then greedy
roulette construction. -/
def acoTour (labs : List (LabT K)) (dE : LabT K → LabT K → K)
    (cfg : Settings K) (phers : List K) (o : AcoOracle K)
    (n k it ant : ℕ) : List ℕ :=
  let pr := pyPop (List.range n) 0 (o.first it ant % n)
  acoBuild labs dE cfg phers o it ant k k [pr.1] pr.2

/-- One iteration of ant_colony_optimization: every ant builds a tour; the
best complete tour updates the running best; pheromones evaporate and every
index of every complete tour receives a 1/k deposit. -/
def acoIter (labs : List (LabT K)) (dE : LabT K → LabT K → K)
    (cfg : Settings K) (o : AcoOracle K) (n k it : ℕ)
    (state : List K × Option (List ℕ × WithTop K)) :
    List K × Option (List ℕ × WithTop K) :=
  let tours := (List.range cfg.numAnts).map
    (fun ant => acoTour labs dE cfg state.1 o n k it ant)
  let best2 := tours.foldl
    (fun acc tour =>
      if tour.length = k then
        match acc with
        | none => some (tour, calcMin labs dE tour)
        | some (b, bf) =>
          if bf < calcMin labs dE tour then some (tour, calcMin labs dE tour)
          else some (b, bf)
      else acc)
    state.2
  let phers2 := state.1.map (fun p => p * (1 - cfg.evaporationRate))
  (tours.foldl
    (fun ph tour =>
      if tour.length = k then
        tour.foldl (fun ph2 i => ph2.set i (ph2.getD i 0 + 1 / (tour.length : K))) ph
      else ph)
    phers2,
   best2)

/-- ant_colony_optimization of the source on indices, also returning the
tracked best fitness (bottom when no complete tour was ever found and the
final random.sample fallback is used). -/
def acoCore (labs : List (LabT K)) (dE : LabT K → LabT K → K)
    (n k : ℕ) (cfg : Settings K) (o : AcoOracle K) :
    List ℕ × WithBot (WithTop K) :=
  let final := (List.range cfg.iterations).foldl
    (fun st it => acoIter labs dE cfg o n k it st)
    (List.replicate n (1 : K), none)
  match final.2 with
  | none => (o.finalSample, ⊥)
  | some (b, bf) => (b, ((bf : WithTop K) : WithBot (WithTop K)))

/-! ### Result assembly, canonical order, the pool state monad, dispatch -/

/-- The value of one entry of the result dict of a strategy: the selected
colors, or the elapsed wall-clock milliseconds (whose magnitude is outside
the model). -/
inductive RVal : Type
  | colorList (cs : List ColorT)
  | num
  deriving DecidableEq

/-- The result dict of every strategy: keys to values, in insertion order. -/
abbrev Result : Type := List (String × RVal)

/-- The dict literal returned by every strategy of the source:
colors and time, nothing else. -/
def mkResult (cs : List ColorT) : Result :=
  [("colors", RVal.colorList cs), ("time", RVal.num)]

/-- Dict lookup on a Result. -/
def lookupR (s : String) (r : Result) : Option RVal :=
  (r.find? (fun e => e.1 == s)).map (fun e => e.2)

/-- The comparison realized by the sort key (-L, -a, -b) of sort_colors:
first component descending, then second descending, then third
descending. -/
def labKeyLe (x y : LabT K) : Prop :=
  y.1 < x.1 ∨ (x.1 = y.1 ∧ (y.2.1 < x.2.1 ∨ (x.2.1 = y.2.1 ∧ y.2.2 ≤ x.2.2)))

instance labKeyLeDec : DecidableRel (labKeyLe (K := K)) := fun x y => by
  unfold labKeyLe
  infer_instance

/-- The induced presentation order on colors. -/
def colorKeyLe (toLab : ColorT → LabT K) (c d : ColorT) : Prop :=
  labKeyLe (toLab c) (toLab d)

instance colorKeyLeDec (toLab : ColorT → LabT K) :
    DecidableRel (colorKeyLe toLab) := fun _ _ => labKeyLeDec _ _

/-- sort_colors of the source: stable sort of the colors by their Lab key,
descending in each component.  The source stably sorts the index list by
the key and maps back, which produces the same list as stably sorting the
colors by the same key; Python sort and insertion sort are both stable. -/
def sort_colors (toLab : ColorT → LabT K) (colors : List ColorT) :
    List ColorT :=
  List.insertionSort (colorKeyLe toLab) colors

/-- The pool state: a strategy call transforms the caller-supplied color
list while computing a value.  The source only ever reads the pool (len,
indexing, iteration), which the read primitives below make explicit. -/
def PoolM (α : Type) : Type := List ColorT → α × List ColorT

def pmPure {α : Type} (a : α) : PoolM α := fun p => (a, p)

def pmBind {α β : Type} (m : PoolM α) (f : α → PoolM β) : PoolM β :=
  fun p => f (m p).1 (m p).2

/-- len(colors). -/
def readLen : PoolM ℕ := fun p => (p.length, p)

/-- The list comprehension building lab_colors: one read per entry. -/
def readLabs (toLab : ColorT → LabT K) : PoolM (List (LabT K)) :=
  fun p => (p.map toLab, p)

/-- The list comprehension materializing selected indices into colors. -/
def readColorsAt (sel : List ℕ) : PoolM (List ColorT) :=
  fun p => (sel.map (fun i => p.getD i (0, 0, 0)), p)

/-- The shared shape of every strategy of the source: build lab_colors from
the pool, run the search purely on indices, materialize the selection, and
return the dict with the canonically sorted colors and the elapsed time. -/
def runStrategyM (toLab : ColorT → LabT K)
    (core : ℕ → List (LabT K) → List ℕ) : PoolM Result :=
  pmBind readLen (fun n =>
    pmBind (readLabs toLab) (fun labs =>
      pmBind (readColorsAt (core n labs)) (fun cs =>
        pmPure (mkResult (sort_colors toLab cs)))))

/-- The randomness consumed by a whole dispatch call, one oracle per
stochastic strategy plus the three single randint draws. -/
structure Oracle (K : Type) where
  greedyFirst : ℕ
  seqFirst : ℕ
  sa : SaOracle K
  km : KmOracle K
  ga : GaOracle K
  pso : PsoOracle K
  aco : AcoOracle K

/-- greedy_selection as a pool transformer. -/
def greedy_selection (toLab : ColorT → LabT K) (dE : LabT K → LabT K → K)
    (o : Oracle K) (k : ℕ) : PoolM Result :=
  runStrategyM toLab (fun n labs => greedyCore labs dE n k o.greedyFirst)

/-- max_sum_distances_global as a pool transformer. -/
def max_sum_distances_global (toLab : ColorT → LabT K)
    (dE : LabT K → LabT K → K) (k : ℕ) : PoolM Result :=
  runStrategyM toLab (fun n labs => maxSumGlobalCore labs dE n k)

/-- max_sum_distances_sequential as a pool transformer. -/
def max_sum_distances_sequential (toLab : ColorT → LabT K)
    (dE : LabT K → LabT K → K) (o : Oracle K) (k : ℕ) : PoolM Result :=
  runStrategyM toLab (fun n labs => maxSumSeqCore labs dE n k o.seqFirst)

/-- simulated_annealing as a pool transformer. -/
def simulated_annealing (toLab : ColorT → LabT K) (dE : LabT K → LabT K → K)
    (expF : K → K) (cfg : Settings K) (o : Oracle K) (k : ℕ) : PoolM Result :=
  runStrategyM toLab (fun n labs => saCore labs dE n k cfg expF o.sa)

/-- kmeans_plus_plus_selection as a pool transformer. -/
def kmeans_plus_plus_selection (toLab : ColorT → LabT K)
    (dE : LabT K → LabT K → K) (o : Oracle K) (k : ℕ) : PoolM Result :=
  runStrategyM toLab (fun n labs => kmeansCore labs dE n k o.km)

/-- genetic_algorithm as a pool transformer. -/
def genetic_algorithm (toLab : ColorT → LabT K) (dE : LabT K → LabT K → K)
    (cfg : Settings K) (o : Oracle K) (k : ℕ) : PoolM Result :=
  runStrategyM toLab (fun n labs => (gaCore labs dE n k cfg o.ga).1)

/-- particle_swarm_optimization as a pool transformer. -/
def particle_swarm_optimization (toLab : ColorT → LabT K)
    (dE : LabT K → LabT K → K) (cfg : Settings K) (o : Oracle K) (k : ℕ) :
    PoolM Result :=
  runStrategyM toLab (fun n labs => (psoCore labs dE n k cfg o.pso).1)

/-- ant_colony_optimization as a pool transformer. -/
def ant_colony_optimization (toLab : ColorT → LabT K)
    (dE : LabT K → LabT K → K) (cfg : Settings K) (o : Oracle K) (k : ℕ) :
    PoolM Result :=
  runStrategyM toLab (fun n labs => (acoCore labs dE n k cfg o.aco).1)

/-- tabu_search as a pool transformer. -/
def tabu_search (toLab : ColorT → LabT K) (dE : LabT K → LabT K → K)
    (cfg : Settings K) (k : ℕ) : PoolM Result :=
  runStrategyM toLab (fun n labs => tabuCore labs dE n k cfg)

/-- exact_minimum as a pool transformer; the source indexes the final best
directly (None is impossible for 0 < k <= n, and modeled by the empty
selection). -/
def exact_minimum (toLab : ColorT → LabT K) (dE : LabT K → LabT K → K)
    (k : ℕ) : PoolM Result :=
  runStrategyM toLab (fun n labs =>
    match exactCore labs dE n k with
    | none => []
    | some (sel, _) => sel)

/-- The ALGORITHMS dict of the source: insertion-ordered name-strategy
pairs. -/
def algorithmTable (toLab : ColorT → LabT K) (dE : LabT K → LabT K → K)
    (expF : K → K) (cfg : Settings K) (o : Oracle K) (k : ℕ) :
    List (String × PoolM Result) :=
  [("greedy", greedy_selection toLab dE o k),
   ("max_sum_global", max_sum_distances_global toLab dE k),
   ("max_sum_sequential", max_sum_distances_sequential toLab dE o k),
   ("simulated_annealing", simulated_annealing toLab dE expF cfg o k),
   ("kmeans_plus_plus", kmeans_plus_plus_selection toLab dE o k),
   ("genetic_algorithm", genetic_algorithm toLab dE cfg o k),
   ("particle_swarm", particle_swarm_optimization toLab dE cfg o k),
   ("ant_colony", ant_colony_optimization toLab dE cfg o k),
   ("tabu_search", tabu_search toLab dE cfg k),
   ("exact_minimum", exact_minimum toLab dE k)]

/-- Dict lookup in ALGORITHMS. -/
def ALGORITHMS (toLab : ColorT → LabT K) (dE : LabT K → LabT K → K)
    (expF : K → K) (cfg : Settings K) (o : Oracle K) (k : ℕ)
    (name : String) : Option (PoolM Result) :=
  ((algorithmTable toLab dE expF cfg o k).find? (fun e => e.1 == name)).map
    (fun e => e.2)

/-- The strategy names recognized by the dispatcher. -/
def algorithmNames : List String :=
  ["greedy", "max_sum_global", "max_sum_sequential", "simulated_annealing",
   "kmeans_plus_plus", "genetic_algorithm", "particle_swarm", "ant_colony",
   "tabu_search", "exact_minimum"]

/-- select_distinct_colors of the source: reject unknown strategy names,
then reject k greater than the pool size, then run the strategy.  No check
rejects k at most zero. -/
def select_distinct_colorsM (toLab : ColorT → LabT K)
    (dE : LabT K → LabT K → K) (expF : K → K) (cfg : Settings K)
    (o : Oracle K) (k : ℕ) (name : String) : PoolM (Except String Result) :=
  match ALGORITHMS toLab dE expF cfg o k name with
  | none => pmPure (Except.error ("Unknown algorithm: " ++ name))
  | some strat =>
    pmBind readLen (fun n =>
      if n < k then pmPure (Except.error ("Cannot select more colors than available"))
      else pmBind strat (fun r => pmPure (Except.ok r)))

/-- The value computed by a dispatch call on a given pool. -/
def select_distinct_colors (toLab : ColorT → LabT K)
    (dE : LabT K → LabT K → K) (expF : K → K) (cfg : Settings K)
    (o : Oracle K) (colors : List ColorT) (k : ℕ) (name : String) :
    Except String Result :=
  (select_distinct_colorsM toLab dE expF cfg o k name colors).1

/-! ### The exception-faithful layer

The strategies above model the executions of the source on which no
exception is raised; the embeddings below additionally model the uncaught
exceptions of the source, which the dispatcher does not guard against:
randint(0, m-1) raises ValueError when m = 0, random.sample(pop, k) raises
ValueError when k exceeds the population, random.choice and list.pop raise
IndexError on an empty list or an out-of-range position, min() raises
ValueError on an empty sequence, and indexing a list out of range raises
IndexError.  Each strategy below returns either its selection or the first
exception the source would raise, at the same program point. -/

/-- The exceptions the source can raise. -/
inductive PyExc : Type
  | valueError
  | indexError
  | typeError
  deriving DecidableEq

/-- random.randint(0, m - 1): ValueError when the range is empty, else the
recorded draw reduced into range. -/
def pyRandintE (m draw : ℕ) : Except PyExc ℕ :=
  if m = 0 then Except.error PyExc.valueError else Except.ok (draw % m)

/-- random.choice l: IndexError on an empty list. -/
def pyChoiceE {α : Type} (l : List α) (d : α) (i : ℕ) : Except PyExc α :=
  if l.length = 0 then Except.error PyExc.indexError
  else Except.ok (l.getD (i % l.length) d)

/-- l.pop(i): IndexError when the position is out of range. -/
def pyPopE {α : Type} (l : List α) (d : α) (i : ℕ) :
    Except PyExc (α × List α) :=
  if i < l.length then Except.ok (l.getD i d, l.eraseIdx i)
  else Except.error PyExc.indexError

/-- random.sample(range(n), k): ValueError when k exceeds the population;
the sampled list itself is the recorded draw. -/
def pySampleE (n k : ℕ) (s : List ℕ) : Except PyExc (List ℕ) :=
  if n < k then Except.error PyExc.valueError else Except.ok s

/-- min() of a list: ValueError on an empty sequence. -/
def pyMinE {γ : Type} [LinearOrder γ] (l : List γ) : Except PyExc γ :=
  match l with
  | [] => Except.error PyExc.valueError
  | x :: xs => Except.ok (xs.foldl min x)

/-- l[i]: IndexError out of range. -/
def pyIndexE {α : Type} (l : List α) (i : ℕ) : Except PyExc α :=
  if h : i < l.length then Except.ok (l.get ⟨i, h⟩)
  else Except.error PyExc.indexError

/-- The while loop of greedy_selection with the pop raise modeled:
popping from an empty available list (reached when k exceeds the pool
size) is an IndexError. -/
def greedyLoopE (labs : List (LabT K)) (dE : LabT K → LabT K → K) (k : ℕ) :
    ℕ → List ℕ → List ℕ → Except PyExc (List ℕ)
  | 0, selected, _ => Except.ok selected
  | fuel + 1, selected, available =>
    if selected.length < k then
      match pyPopE available 0
        (scanBest available (fun idx => minDistTo labs dE idx selected)) with
      | Except.error e => Except.error e
      | Except.ok pr => greedyLoopE labs dE k fuel (selected ++ [pr.1]) pr.2
    else Except.ok selected

/-- greedy_selection with its raises: the first randint is a ValueError on
an empty pool (line 277 of the source), the loop pop an IndexError once
the available list is exhausted. -/
def greedyCoreE (labs : List (LabT K)) (dE : LabT K → LabT K → K)
    (n k : ℕ) (first : ℕ) : Except PyExc (List ℕ) :=
  match pyRandintE n first with
  | Except.error e => Except.error e
  | Except.ok fi =>
    match pyPopE (List.range n) 0 fi with
    | Except.error e => Except.error e
    | Except.ok pr => greedyLoopE labs dE k k [pr.1] pr.2

/-- max_sum_distances_global consumes no randomness and raises on no
input: empty pools and any k only shorten its slices. -/
def maxSumGlobalCoreE (labs : List (LabT K)) (dE : LabT K → LabT K → K)
    (n k : ℕ) : Except PyExc (List ℕ) :=
  Except.ok (maxSumGlobalCore labs dE n k)

/-- The while loop of max_sum_distances_sequential with the pop raise. -/
def maxSumSeqLoopE (labs : List (LabT K)) (dE : LabT K → LabT K → K) (k : ℕ) :
    ℕ → List ℕ → List ℕ → Except PyExc (List ℕ)
  | 0, selected, _ => Except.ok selected
  | fuel + 1, selected, available =>
    if selected.length < k then
      match pyPopE available 0
        (scanBest available (fun idx => sumDistTo labs dE idx selected)) with
      | Except.error e => Except.error e
      | Except.ok pr => maxSumSeqLoopE labs dE k fuel (selected ++ [pr.1]) pr.2
    else Except.ok selected

/-- max_sum_distances_sequential with its raises (first randint at line
340 of the source). -/
def maxSumSeqCoreE (labs : List (LabT K)) (dE : LabT K → LabT K → K)
    (n k : ℕ) (first : ℕ) : Except PyExc (List ℕ) :=
  match pyRandintE n first with
  | Except.error e => Except.error e
  | Except.ok fi =>
    match pyPopE (List.range n) 0 fi with
    | Except.error e => Except.error e
    | Except.ok pr => maxSumSeqLoopE labs dE k k [pr.1] pr.2

/-- One added k-means++ center with the zero-total fallback raise
modeled: random.choice of the unselected indices (line 458 of the
source), an IndexError when none remain. -/
def kmStepE (labs : List (LabT K)) (dE : LabT K → LabT K → K)
    (n : ℕ) (o : KmOracle K) (selected : List ℕ) : Except PyExc ℕ :=
  let distances := kmDistances labs dE n selected
  if distances.sum = 0 then
    pyChoiceE ((List.range n).filter (fun i => decide (i ∉ selected))) 0
      (o.fallback selected.length)
  else
    Except.ok (kmRouletteLoop selected distances (n + 1)
      (o.draw selected.length * distances.sum) 0)

/-- The while loop of kmeans_plus_plus_selection over kmStepE. -/
def kmGrowE (labs : List (LabT K)) (dE : LabT K → LabT K → K)
    (n k : ℕ) (o : KmOracle K) : ℕ → List ℕ → Except PyExc (List ℕ)
  | 0, selected => Except.ok selected
  | fuel + 1, selected =>
    if selected.length < k then
      match kmStepE labs dE n o selected with
      | Except.error e => Except.error e
      | Except.ok s => kmGrowE labs dE n k o fuel (selected ++ [s])
    else Except.ok selected

/-- kmeans_plus_plus_selection with its raises: the first randint is a
ValueError on an empty pool (line 442 of the source). -/
def kmeansCoreE (labs : List (LabT K)) (dE : LabT K → LabT K → K)
    (n k : ℕ) (o : KmOracle K) : Except PyExc (List ℕ) :=
  match pyRandintE n o.first with
  | Except.error e => Except.error e
  | Except.ok f => kmGrowE labs dE n k o k [f]

/-- The main loop of simulated_annealing with its raises: the swap randint
(line 402 of the source) is a ValueError when k = 0, and random.choice of
the unselected indices (line 404) an IndexError when the selection already
covers the pool; both are checked after the temperature floor, exactly as
in the source. -/
def saLoopE (labs : List (LabT K)) (dE : LabT K → LabT K → K)
    (n k : ℕ) (cfg : Settings K) (expF : K → K) (o : SaOracle K) :
    ℕ → ℕ → List ℕ → WithTop K → List ℕ → WithTop K → K →
      Except PyExc (List ℕ)
  | 0, _, _, _, best, _, _ => Except.ok best
  | fuel + 1, it, cur, cf, best, bf, temp =>
    if temp ≤ cfg.minTemp then Except.ok best
    else
      match pyRandintE k (o.swapIdx it) with
      | Except.error e => Except.error e
      | Except.ok si =>
        match pyChoiceE ((List.range n).filter (fun j => decide (j ∉ cur))) 0
          (o.choice it) with
        | Except.error e => Except.error e
        | Except.ok ni =>
          let neigh := cur.set si ni
          let nf := calcMin labs dE neigh
          if saAccept expF nf cf temp (o.accept it) then
            if bf < nf then
              saLoopE labs dE n k cfg expF o fuel (it + 1) neigh nf neigh nf
                (temp * cfg.coolingRate)
            else
              saLoopE labs dE n k cfg expF o fuel (it + 1) neigh nf best bf
                (temp * cfg.coolingRate)
          else
            saLoopE labs dE n k cfg expF o fuel (it + 1) cur cf best bf
              (temp * cfg.coolingRate)

/-- simulated_annealing with its raises: random.sample (line 387 of the
source) is a ValueError when k exceeds the pool size. -/
def saCoreE (labs : List (LabT K)) (dE : LabT K → LabT K → K)
    (n k : ℕ) (cfg : Settings K) (expF : K → K) (o : SaOracle K) :
    Except PyExc (List ℕ) :=
  match pySampleE n k o.init with
  | Except.error e => Except.error e
  | Except.ok cur0 =>
    saLoopE labs dE n k cfg expF o 10000 0 cur0 (calcMin labs dE cur0)
      cur0 (calcMin labs dE cur0) cfg.initialTemp

/-- List.mapM specialized to Except, used for the per-individual and
per-particle loops and the final color materialization. -/
def listMapE {α β : Type} (f : α → Except PyExc β) :
    List α → Except PyExc (List β)
  | [] => Except.ok []
  | x :: xs =>
    match f x with
    | Except.error e => Except.error e
    | Except.ok y =>
      match listMapE f xs with
      | Except.error e => Except.error e
      | Except.ok ys => Except.ok (y :: ys)

/-- A left fold over a list whose step can raise. -/
def listFoldE {α σ : Type} (f : σ → α → Except PyExc σ) :
    List α → σ → Except PyExc σ
  | [], st => Except.ok st
  | x :: xs, st =>
    match f st x with
    | Except.error e => Except.error e
    | Except.ok st2 => listFoldE f xs st2

/-- The child padding loop of genetic_algorithm with the choice raise
(line 541 of the source, reached only when k exceeds the pool size). -/
def gaPadE (n k : ℕ) (o : GaOracle K) (g c : ℕ) :
    ℕ → List ℕ → Except PyExc (List ℕ)
  | 0, child => Except.ok child
  | fuel + 1, child =>
    if child.length < k then
      match pyChoiceE ((List.range n).filter (fun i => decide (i ∉ child))) 0
        (o.pad g c child.length) with
      | Except.error e => Except.error e
      | Except.ok v => gaPadE n k o g c fuel (child ++ [v])
    else Except.ok child

/-- One child of genetic_algorithm with its raises: the six tournament
randints (lines 525-526 of the source, a ValueError when the population
size is zero), the crossover randint (line 535, a ValueError when k = 0),
and the mutation randint (line 547, likewise). -/
def gaChildE (n k : ℕ) (cfg : Settings K) (o : GaOracle K)
    (fitnesses : List (WithTop K)) (population : List (List ℕ))
    (g c : ℕ) : Except PyExc (List ℕ) :=
  let ps := cfg.populationSize
  match listMapE (fun j => pyRandintE ps (o.tour g c j)) [0, 1, 2] with
  | Except.error e => Except.error e
  | Except.ok t1 =>
    match listMapE (fun j => pyRandintE ps (o.tour g c j)) [3, 4, 5] with
    | Except.error e => Except.error e
    | Except.ok t2 =>
      let p1 := population.getD (maxByKey t1 (fun i => fitnesses.getD i ⊤)) []
      let p2 := population.getD (maxByKey t2 (fun i => fitnesses.getD i ⊤)) []
      match pyRandintE k (o.cross g c) with
      | Except.error e => Except.error e
      | Except.ok cp =>
        match gaPadE n k o g c k (pyDedup (p1.take cp ++ p2.drop cp)) with
        | Except.error e => Except.error e
        | Except.ok child1 =>
          let child2 := child1.take k
          if o.mutGate g c < cfg.mutationRate then
            match pyRandintE k (o.mutIdx g c) with
            | Except.error e => Except.error e
            | Except.ok mi =>
              let available :=
                (List.range n).filter (fun i => decide (i ∉ child2))
              if available = [] then Except.ok child2
              else
                match pyChoiceE available 0 (o.mutPick g c) with
                | Except.error e => Except.error e
                | Except.ok mv => Except.ok (child2.set mi mv)
          else Except.ok child2

/-- One generation of genetic_algorithm over gaChildE. -/
def gaGenE (labs : List (LabT K)) (dE : LabT K → LabT K → K)
    (n k : ℕ) (cfg : Settings K) (o : GaOracle K)
    (st : List (List ℕ) × List ℕ × WithTop K) (g : ℕ) :
    Except PyExc (List (List ℕ) × List ℕ × WithTop K) :=
  let fitnesses := st.1.map (calcMin labs dE)
  let mfi := firstMaxIdx ⊤ fitnesses
  let best2 := if st.2.2 < mfi.2 then st.1.getD mfi.1 [] else st.2.1
  let bf2 := if st.2.2 < mfi.2 then mfi.2 else st.2.2
  match listMapE (fun c => gaChildE n k cfg o fitnesses st.1 g c)
    (List.range cfg.populationSize) with
  | Except.error e => Except.error e
  | Except.ok newPop => Except.ok (newPop, best2, bf2)

/-- genetic_algorithm with its raises: per-individual random.sample
(line 503 of the source, a ValueError when k exceeds the pool size) and
population[0] (line 506, an IndexError when populationSize is zero). -/
def gaCoreE (labs : List (LabT K)) (dE : LabT K → LabT K → K)
    (n k : ℕ) (cfg : Settings K) (o : GaOracle K) : Except PyExc (List ℕ) :=
  match listMapE (fun i => pySampleE n k (o.init i))
    (List.range cfg.populationSize) with
  | Except.error e => Except.error e
  | Except.ok population =>
    match pyIndexE population 0 with
    | Except.error e => Except.error e
    | Except.ok best0 =>
      match listFoldE (gaGenE labs dE n k cfg o)
        (List.range cfg.generations)
        (population, best0, calcMin labs dE best0) with
      | Except.error e => Except.error e
      | Except.ok final => Except.ok final.2.1

/-- particle_swarm_optimization with its raises: per-particle
random.sample (line 590 of the source, a ValueError when k exceeds the
pool size) and particles[0] (line 599, an IndexError when numParticles is
zero); the iteration body itself raises on no input (its random.choice is
guarded), so it is the total psoIter. -/
def psoCoreE (labs : List (LabT K)) (dE : LabT K → LabT K → K)
    (n k : ℕ) (cfg : Settings K) (o : PsoOracle K) : Except PyExc (List ℕ) :=
  let _w := cfg.inertiaWeight
  let _c1 := cfg.cognitiveWeight
  let _c2 := cfg.socialWeight
  match listMapE (fun p => pySampleE n k (o.init p))
    (List.range cfg.numParticles) with
  | Except.error e => Except.error e
  | Except.ok positions =>
    let particles0 := positions.map (fun pos =>
      Particle.mk pos (List.replicate k 0) pos (calcMin labs dE pos))
    match pyIndexE particles0 0 with
    | Except.error e => Except.error e
    | Except.ok first =>
      let gInit := particles0.foldl
        (fun acc part =>
          if acc.2 < part.bestFit then (part.bestPos, part.bestFit) else acc)
        (first.bestPos, first.bestFit)
      Except.ok ((List.range cfg.iterations).foldl
        (fun st it => psoIter labs dE n k o it st)
        (particles0, gInit.1, gInit.2)).2.1

/-- One full ant tour with its raise: the first randint (line 682 of the
source), a ValueError on an empty pool; the construction loop raises on no
input (its random.choice runs under the nonempty-available loop guard). -/
def acoTourE (labs : List (LabT K)) (dE : LabT K → LabT K → K)
    (cfg : Settings K) (phers : List K) (o : AcoOracle K)
    (n k it ant : ℕ) : Except PyExc (List ℕ) :=
  match pyRandintE n (o.first it ant) with
  | Except.error e => Except.error e
  | Except.ok fi =>
    match pyPopE (List.range n) 0 fi with
    | Except.error e => Except.error e
    | Except.ok pr => Except.ok (acoBuild labs dE cfg phers o it ant k k
        [pr.1] pr.2)

/-- One iteration of ant_colony_optimization with its raise: the fitness
of a complete tour is min() over its pairwise distances (line 718 of the
source), a ValueError on the empty pair sequence of a length-one tour
(k = 1). -/
def acoIterE (labs : List (LabT K)) (dE : LabT K → LabT K → K)
    (cfg : Settings K) (o : AcoOracle K) (n k : ℕ)
    (state : List K × Option (List ℕ × K)) (it : ℕ) :
    Except PyExc (List K × Option (List ℕ × K)) :=
  match listMapE (fun ant => acoTourE labs dE cfg state.1 o n k it ant)
    (List.range cfg.numAnts) with
  | Except.error e => Except.error e
  | Except.ok tours =>
    match listFoldE
      (fun acc tour =>
        if tour.length = k then
          match pyMinE ((allPairs tour).map
            (fun p => dE (labAt labs p.1) (labAt labs p.2))) with
          | Except.error e => Except.error e
          | Except.ok fit =>
            match acc with
            | none => Except.ok (some (tour, fit))
            | some (b, bf) =>
              if bf < fit then Except.ok (some (tour, fit))
              else Except.ok (some (b, bf))
        else Except.ok acc)
      tours state.2 with
    | Except.error e => Except.error e
    | Except.ok best2 =>
      let phers2 := state.1.map (fun p => p * (1 - cfg.evaporationRate))
      Except.ok
        (tours.foldl
          (fun ph tour =>
            if tour.length = k then
              tour.foldl
                (fun ph2 i => ph2.set i (ph2.getD i 0 + 1 / (tour.length : K)))
                ph
            else ph)
          phers2,
         best2)

/-- ant_colony_optimization with its raises, including the final fallback
random.sample (line 738 of the source), a ValueError when k exceeds the
pool size. -/
def acoCoreE (labs : List (LabT K)) (dE : LabT K → LabT K → K)
    (n k : ℕ) (cfg : Settings K) (o : AcoOracle K) : Except PyExc (List ℕ) :=
  match listFoldE (acoIterE labs dE cfg o n k) (List.range cfg.iterations)
    (List.replicate n (1 : K), none) with
  | Except.error e => Except.error e
  | Except.ok final =>
    match final.2 with
    | none => pySampleE n k o.finalSample
    | some (b, _) => Except.ok b

/-- tabu_search consumes no randomness; with k at most the pool size every
index it touches is in range and it raises on no input.  (With k above
the pool size the source would raise from out-of-range Lab indexing, which
the dispatcher rejects before the call; that path is modeled as an
IndexError here.) -/
def tabuCoreE (labs : List (LabT K)) (dE : LabT K → LabT K → K)
    (n k : ℕ) (cfg : Settings K) : Except PyExc (List ℕ) :=
  if 2 ≤ k ∧ n < k then Except.error PyExc.indexError
  else Except.ok (tabuCore labs dE n k cfg)

/-- exact_minimum with its raise: when k exceeds the pool size the
combination loop never runs, best_selection stays None, and iterating None
to materialize the colors (line 857 of the source) is a TypeError. -/
def exactCoreE (labs : List (LabT K)) (dE : LabT K → LabT K → K)
    (n k : ℕ) : Except PyExc (List ℕ) :=
  match exactCore labs dE n k with
  | none => Except.error PyExc.typeError
  | some (sel, _) => Except.ok sel

/-- The shared result assembly over a strategy that can raise: the search
runs on indices, the selected indices are materialized by indexing the
caller list (colors[i], an IndexError out of range), and the dict is built
from the canonically sorted colors. -/
def runStrategyE (toLab : ColorT → LabT K)
    (coreE : ℕ → List (LabT K) → Except PyExc (List ℕ))
    (colors : List ColorT) : Except PyExc Result :=
  match coreE colors.length (colors.map toLab) with
  | Except.error e => Except.error e
  | Except.ok sel =>
    match listMapE (fun i => pyIndexE colors i) sel with
    | Except.error e => Except.error e
    | Except.ok cs => Except.ok (mkResult (sort_colors toLab cs))

/-- The ALGORITHMS dict over the exception-faithful strategies. -/
def algorithmTableE (toLab : ColorT → LabT K) (dE : LabT K → LabT K → K)
    (expF : K → K) (cfg : Settings K) (o : Oracle K) (k : ℕ) :
    List (String × (List ColorT → Except PyExc Result)) :=
  [("greedy", runStrategyE toLab (fun n labs => greedyCoreE labs dE n k o.greedyFirst)),
   ("max_sum_global", runStrategyE toLab (fun n labs => maxSumGlobalCoreE labs dE n k)),
   ("max_sum_sequential",
    runStrategyE toLab (fun n labs => maxSumSeqCoreE labs dE n k o.seqFirst)),
   ("simulated_annealing",
    runStrategyE toLab (fun n labs => saCoreE labs dE n k cfg expF o.sa)),
   ("kmeans_plus_plus",
    runStrategyE toLab (fun n labs => kmeansCoreE labs dE n k o.km)),
   ("genetic_algorithm",
    runStrategyE toLab (fun n labs => gaCoreE labs dE n k cfg o.ga)),
   ("particle_swarm",
    runStrategyE toLab (fun n labs => psoCoreE labs dE n k cfg o.pso)),
   ("ant_colony",
    runStrategyE toLab (fun n labs => acoCoreE labs dE n k cfg o.aco)),
   ("tabu_search", runStrategyE toLab (fun n labs => tabuCoreE labs dE n k cfg)),
   ("exact_minimum", runStrategyE toLab (fun n labs => exactCoreE labs dE n k))]

/-- Dict lookup in the exception-faithful ALGORITHMS. -/
def ALGORITHMSE (toLab : ColorT → LabT K) (dE : LabT K → LabT K → K)
    (expF : K → K) (cfg : Settings K) (o : Oracle K) (k : ℕ)
    (name : String) : Option (List ColorT → Except PyExc Result) :=
  ((algorithmTableE toLab dE expF cfg o k).find? (fun e => e.1 == name)).map
    (fun e => e.2)

/-- select_distinct_colors with the strategy raises kept apart from the
two dispatch-boundary checks: the outer layer is the boundary (an unknown
strategy name, then k greater than the pool size, each raised before any
strategy computation runs), the inner layer is whatever exception the
strategy computation itself raises. -/
def select_distinct_colorsE (toLab : ColorT → LabT K)
    (dE : LabT K → LabT K → K) (expF : K → K) (cfg : Settings K)
    (o : Oracle K) (colors : List ColorT) (k : ℕ) (name : String) :
    Except String (Except PyExc Result) :=
  match ALGORITHMSE toLab dE expF cfg o k name with
  | none => Except.error ("Unknown algorithm: " ++ name)
  | some strat =>
    if colors.length < k then
      Except.error ("Cannot select more colors than available")
    else Except.ok (strat colors)

end Core

/-- An all-zero oracle over the rationals for concrete runs. -/
def oracle0 : Oracle ℚ :=
  Oracle.mk 0 0
    (SaOracle.mk [] (fun _ => 0) (fun _ => 0) (fun _ => 0))
    (KmOracle.mk 0 (fun _ => 0) (fun _ => 0))
    (GaOracle.mk (fun _ => []) (fun _ _ _ => 0) (fun _ _ => 0) (fun _ _ _ => 0)
      (fun _ _ => 0) (fun _ _ => 0) (fun _ _ => 0))
    (PsoOracle.mk (fun _ => []) (fun _ _ _ => 0) (fun _ _ _ => 0)
      (fun _ _ _ => 0) (fun _ _ _ => 0))
    (AcoOracle.mk (fun _ _ => 0) (fun _ _ _ => 0) (fun _ _ _ => 0) [])

/-! ## Theorems: the real adapter is a pseudometric-style distance -/

theorem delta_e_symm (a b : LabT ℝ) : delta_e a b = delta_e b a := by
  unfold delta_e
  ring_nf

theorem delta_e_nonneg (a b : LabT ℝ) : 0 ≤ delta_e a b :=
  Real.sqrt_nonneg _

theorem delta_e_self (a : LabT ℝ) : delta_e a a = 0 := by
  simp [delta_e]


/-! ## Lemmas about fold-min, allPairs, and combos -/

theorem foldl_min_le_init {γ : Type} [LinearOrder γ] (l : List γ) (a : γ) :
    l.foldl min a ≤ a := by
  induction l generalizing a with
  | nil => simp
  | cons x xs ih => exact le_trans (ih (min a x)) (min_le_left a x)

theorem foldl_min_le_mem {γ : Type} [LinearOrder γ] {l : List γ} {x : γ}
    (hx : x ∈ l) (a : γ) : l.foldl min a ≤ x := by
  induction l generalizing a with
  | nil => cases hx
  | cons y ys ih =>
    rcases List.mem_cons.mp hx with rfl | h
    · exact le_trans (foldl_min_le_init ys (min a x)) (min_le_right a x)
    · exact ih h (min a y)

theorem le_foldl_min {γ : Type} [LinearOrder γ] {l : List γ} {c : γ} {a : γ}
    (ha : c ≤ a) (h : ∀ x ∈ l, c ≤ x) : c ≤ l.foldl min a := by
  induction l generalizing a with
  | nil => simpa using ha
  | cons x xs ih =>
    exact ih (le_min ha (h x (by simp))) (fun y hy => h y (by simp [hy]))

theorem foldl_min_init_or_mem {γ : Type} [LinearOrder γ] (l : List γ) (a : γ) :
    l.foldl min a = a ∨ l.foldl min a ∈ l := by
  induction l generalizing a with
  | nil => exact Or.inl rfl
  | cons x xs ih =>
    have hstep : (x :: xs).foldl min a = xs.foldl min (min a x) := rfl
    rcases ih (min a x) with h | h
    · rcases min_choice a x with hc | hc
      · exact Or.inl (by rw [hstep, h, hc])
      · exact Or.inr (by rw [hstep, h, hc]; exact List.mem_cons_self x xs)
    · exact Or.inr (by rw [hstep]; exact List.mem_cons_of_mem x h)

theorem mem_allPairs {α : Type} {l : List α} {p : α × α}
    (hp : p ∈ allPairs l) : p.1 ∈ l ∧ p.2 ∈ l := by
  induction l with
  | nil => cases hp
  | cons x xs ih =>
    simp only [allPairs, List.mem_append, List.mem_map] at hp
    rcases hp with ⟨y, hy, rfl⟩ | h
    · exact ⟨List.mem_cons_self x xs, List.mem_cons_of_mem x hy⟩
    · exact ⟨List.mem_cons_of_mem x (ih h).1, List.mem_cons_of_mem x (ih h).2⟩

theorem pairwise_allPairs {α : Type} {R : α → α → Prop} :
    ∀ {l : List α}, l.Pairwise R → ∀ {p : α × α}, p ∈ allPairs l → R p.1 p.2 := by
  intro l
  induction l with
  | nil => intro _ p hp; cases hp
  | cons x xs ih =>
    intro hpw p hp
    rcases List.pairwise_cons.mp hpw with ⟨hx, hxs⟩
    simp only [allPairs, List.mem_append, List.mem_map] at hp
    rcases hp with ⟨y, hy, rfl⟩ | h
    · exact hx y hy
    · exact ih hxs h

theorem allPairs_pair_of_mem {α : Type} {l : List α} {a b : α}
    (ha : a ∈ l) (hb : b ∈ l) (hne : a ≠ b) :
    (a, b) ∈ allPairs l ∨ (b, a) ∈ allPairs l := by
  induction l with
  | nil => cases ha
  | cons x xs ih =>
    simp only [allPairs, List.mem_append, List.mem_map]
    rcases List.mem_cons.mp ha with rfl | ha2
    · rcases List.mem_cons.mp hb with rfl | hb2
      · exact absurd rfl hne
      · exact Or.inl (Or.inl ⟨b, hb2, rfl⟩)
    · rcases List.mem_cons.mp hb with rfl | hb2
      · exact Or.inr (Or.inl ⟨a, ha2, rfl⟩)
      · rcases ih ha2 hb2 with h | h
        · exact Or.inl (Or.inr h)
        · exact Or.inr (Or.inr h)

theorem not_nodup_diag_pair {α : Type} [DecidableEq α] {l : List α}
    (h : ¬ l.Nodup) : ∃ p ∈ allPairs l, p.1 = p.2 := by
  induction l with
  | nil => exact absurd List.nodup_nil h
  | cons x xs ih =>
    by_cases hx : x ∈ xs
    · refine ⟨(x, x), ?_, rfl⟩
      simp only [allPairs, List.mem_append, List.mem_map]
      exact Or.inl ⟨x, hx, rfl⟩
    · have hxs : ¬ xs.Nodup := by
        intro hnd
        exact h (List.nodup_cons.mpr ⟨hx, hnd⟩)
      obtain ⟨p, hp, he⟩ := ih hxs
      refine ⟨p, ?_, he⟩
      simp only [allPairs, List.mem_append]
      exact Or.inr hp

theorem allPairs_eq_nil_iff {α : Type} {l : List α} :
    allPairs l = [] ↔ l.length ≤ 1 := by
  match l with
  | [] => simp [allPairs]
  | [x] => simp [allPairs]
  | x :: y :: xs => simp [allPairs]

theorem length_of_mem_combos {α : Type} :
    ∀ {k : ℕ} {L : List α} {c : List α}, c ∈ combos k L → c.length = k := by
  intro k L
  induction L generalizing k with
  | nil =>
    intro c hc
    cases k with
    | zero => simp only [combos, List.mem_singleton] at hc; subst hc; rfl
    | succ k => simp [combos] at hc
  | cons x xs ih =>
    intro c hc
    cases k with
    | zero => simp only [combos, List.mem_singleton] at hc; subst hc; rfl
    | succ k =>
      simp only [combos, List.mem_append, List.mem_map] at hc
      rcases hc with ⟨c0, hc0, rfl⟩ | h
      · simp [ih hc0]
      · exact ih h

theorem sublist_of_mem_combos {α : Type} :
    ∀ {k : ℕ} {L : List α} {c : List α}, c ∈ combos k L → List.Sublist c L := by
  intro k L
  induction L generalizing k with
  | nil =>
    intro c hc
    cases k with
    | zero => simp only [combos, List.mem_singleton] at hc; subst hc; rfl
    | succ k => simp [combos] at hc
  | cons x xs ih =>
    intro c hc
    cases k with
    | zero =>
      simp only [combos, List.mem_singleton] at hc; subst hc
      exact List.nil_sublist _
    | succ k =>
      simp only [combos, List.mem_append, List.mem_map] at hc
      rcases hc with ⟨c0, hc0, rfl⟩ | h
      · exact List.Sublist.cons₂ x (ih hc0)
      · exact List.Sublist.cons x (ih h)

theorem mem_combos_of_sublist {α : Type} {c L : List α}
    (h : List.Sublist c L) : ∀ {k : ℕ}, c.length = k → c ∈ combos k L := by
  induction h with
  | slnil =>
    intro k hk
    cases k with
    | zero => simp [combos]
    | succ k => simp at hk
  | cons x h ih =>
    intro k hk
    cases k with
    | zero =>
      have hnil := List.length_eq_zero.mp hk
      subst hnil
      simp [combos]
    | succ k =>
      simp only [combos, List.mem_append]
      exact Or.inr (ih hk)
  | cons₂ x h ih =>
    intro k hk
    cases k with
    | zero => simp at hk
    | succ k =>
      simp only [combos, List.mem_append, List.mem_map]
      exact Or.inl ⟨_, ih (by simpa using hk), rfl⟩

theorem combos_exists {α : Type} {k : ℕ} {L : List α} (h : k ≤ L.length) :
    ∃ c, c ∈ combos k L := by
  refine ⟨L.take k, mem_combos_of_sublist (List.take_sublist k L) ?_⟩
  simp [h]

theorem pairwise_lt_sublist_range' :
    ∀ (l : List ℕ) (a n : ℕ), l.Pairwise (· < ·) → (∀ x ∈ l, x < n) →
      (∀ x ∈ l, a ≤ x) → List.Sublist l (List.range' a (n - a)) := by
  intro l
  induction l with
  | nil => intro a n _ _ _; exact List.nil_sublist _
  | cons x xs ih =>
    intro a n hpw hub hlb
    have hax : a ≤ x := hlb x (List.mem_cons_self x xs)
    have hxn : x < n := hub x (List.mem_cons_self x xs)
    rcases List.pairwise_cons.mp hpw with ⟨hxlt, hxs⟩
    have htail : List.Sublist xs (List.range' (x + 1) (n - (x + 1))) :=
      ih (x + 1) n hxs (fun y hy => hub y (List.mem_cons_of_mem x hy))
        (fun y hy => hxlt y hy)
    have hsplit : List.range' a (n - a) =
        List.range' a (x - a) ++ (x :: List.range' (x + 1) (n - (x + 1))) := by
      have h1 : List.range' x (n - x) = x :: List.range' (x + 1) (n - (x + 1)) := by
        have hx1 : n - x = (n - (x + 1)) + 1 := by omega
        rw [hx1, List.range'_succ x (n - (x + 1)) 1]
      have h2 : List.range' a (x - a) ++ List.range' (a + (x - a)) (n - x) =
          List.range' a ((x - a) + (n - x)) := by
        simp [Nat.add_comm]
      have h3 : a + (x - a) = x := by omega
      have h4 : (x - a) + (n - x) = n - a := by omega
      rw [h3, h4] at h2
      rw [← h2, h1]
    rw [hsplit]
    have hcons : List.Sublist (x :: xs) (x :: List.range' (x + 1) (n - (x + 1)))
      := List.Sublist.cons₂ x htail
    exact List.sublist_append_of_sublist_right hcons

theorem pairwise_lt_bounded_sublist_range {l : List ℕ} {n : ℕ}
    (h1 : l.Pairwise (· < ·)) (h2 : ∀ x ∈ l, x < n) :
    List.Sublist l (List.range n) := by
  have := pairwise_lt_sublist_range' l 0 n h1 h2 (fun _ _ => Nat.zero_le _)
  simpa [List.range_eq_range'] using this

/-! ## Properties of calcMin and of the exact_minimum fold -/

section ExactLemmas

variable {K : Type} [LinearOrderedField K]
variable (labs : List (LabT K)) (dE : LabT K → LabT K → K)

theorem calcMin_le_pair {s : List ℕ} {p : ℕ × ℕ} (hp : p ∈ allPairs s) :
    calcMin labs dE s ≤ ((dE (labAt labs p.1) (labAt labs p.2) : K) : WithTop K) :=
  foldl_min_le_mem (List.mem_map_of_mem _ hp) ⊤

theorem calcMin_top_or_attained (s : List ℕ) :
    calcMin labs dE s = ⊤ ∨ ∃ p ∈ allPairs s,
      calcMin labs dE s = ((dE (labAt labs p.1) (labAt labs p.2) : K) : WithTop K) := by
  rcases foldl_min_init_or_mem
      ((allPairs s).map
        (fun p => ((dE (labAt labs p.1) (labAt labs p.2) : K) : WithTop K))) ⊤ with h | h
  · exact Or.inl h
  · rcases List.mem_map.mp h with ⟨p, hp, he⟩
    exact Or.inr ⟨p, hp, he.symm⟩

theorem calcMin_nonneg (hdE : ∀ a b, 0 ≤ dE a b) (s : List ℕ) :
    (0 : WithTop K) ≤ calcMin labs dE s := by
  refine le_foldl_min le_top ?_
  intro x hx
  rcases List.mem_map.mp hx with ⟨p, _, rfl⟩
  exact_mod_cast WithTop.coe_le_coe.mpr (hdE _ _)

theorem calcMin_top_of_short {s : List ℕ} (hs : s.length ≤ 1) :
    calcMin labs dE s = ⊤ := by
  unfold calcMin
  rw [allPairs_eq_nil_iff.mpr hs]
  rfl

theorem foldl_exactStep_some :
    ∀ (L : List (List ℕ)) (p : List ℕ × WithTop K),
      L.foldl (exactStep labs dE) (some p) = some (exactRun labs dE L p) := by
  intro L
  induction L with
  | nil => intro p; rfl
  | cons c cs ih =>
    intro p
    have hstep : exactStep labs dE (some p) c =
        some (if p.2 < calcMin labs dE c then (c, calcMin labs dE c) else p) := by
      rcases p with ⟨b, bf⟩
      by_cases h : bf < calcMin labs dE c
      · simp [exactStep, h]
      · simp [exactStep, h]
    show cs.foldl (exactStep labs dE) (exactStep labs dE (some p) c) = _
    rw [hstep, ih]
    rfl

theorem exactRun_snd_mono :
    ∀ (L : List (List ℕ)) (p : List ℕ × WithTop K),
      p.2 ≤ (exactRun labs dE L p).2 := by
  intro L
  induction L with
  | nil => intro p; exact le_refl _
  | cons c cs ih =>
    intro p
    by_cases h : p.2 < calcMin labs dE c
    · calc p.2 ≤ calcMin labs dE c := le_of_lt h
        _ = (c, calcMin labs dE c).2 := rfl
        _ ≤ _ := by
          have := ih (c, calcMin labs dE c)
          simpa [exactRun, h] using this
    · have := ih p
      simpa [exactRun, h] using this

theorem exactRun_ub :
    ∀ (L : List (List ℕ)) (p : List ℕ × WithTop K) (c : List ℕ), c ∈ L →
      calcMin labs dE c ≤ (exactRun labs dE L p).2 := by
  intro L
  induction L with
  | nil => intro p c hc; cases hc
  | cons c0 cs ih =>
    intro p c hc
    rcases List.mem_cons.mp hc with rfl | h
    · by_cases hlt : p.2 < calcMin labs dE c
      · have hmono := exactRun_snd_mono labs dE cs (c, calcMin labs dE c)
        have : calcMin labs dE c ≤ (exactRun labs dE cs (c, calcMin labs dE c)).2 := hmono
        simpa [exactRun, hlt] using this
      · push_neg at hlt
        have hmono := exactRun_snd_mono labs dE cs p
        have : calcMin labs dE c ≤ (exactRun labs dE cs p).2 := le_trans hlt hmono
        simpa [exactRun, not_lt.mpr hlt] using this
    · by_cases hlt : p.2 < calcMin labs dE c0
      · have := ih (c0, calcMin labs dE c0) c h
        simpa [exactRun, hlt] using this
      · have := ih p c h
        simpa [exactRun, hlt] using this

theorem exactRun_spec :
    ∀ (L : List (List ℕ)) (p : List ℕ × WithTop K),
      p.2 = calcMin labs dE p.1 →
      (exactRun labs dE L p).2 = calcMin labs dE (exactRun labs dE L p).1 ∧
        ((exactRun labs dE L p).1 = p.1 ∨ (exactRun labs dE L p).1 ∈ L) := by
  intro L
  induction L with
  | nil => intro p hp; exact ⟨hp, Or.inl rfl⟩
  | cons c cs ih =>
    intro p hp
    by_cases h : p.2 < calcMin labs dE c
    · have hrun : exactRun labs dE (c :: cs) p =
          exactRun labs dE cs (c, calcMin labs dE c) := by
        simp [exactRun, h]
      obtain ⟨h1, h2⟩ := ih (c, calcMin labs dE c) rfl
      rw [hrun]
      refine ⟨h1, ?_⟩
      rcases h2 with h2 | h2
      · exact Or.inr (h2 ▸ List.mem_cons_self c cs)
      · exact Or.inr (List.mem_cons_of_mem c h2)
    · have hrun : exactRun labs dE (c :: cs) p = exactRun labs dE cs p := by
        simp [exactRun, h]
      obtain ⟨h1, h2⟩ := ih p hp
      rw [hrun]
      refine ⟨h1, ?_⟩
      rcases h2 with h2 | h2
      · exact Or.inl h2
      · exact Or.inr (List.mem_cons_of_mem c h2)

end ExactLemmas

theorem qDE_symm (a b : LabT ℚ) : qDE a b = qDE b a := by
  unfold qDE; ring

theorem qDE_nonneg (a b : LabT ℚ) : 0 ≤ qDE a b := by
  unfold qDE; positivity

theorem qDE_self (a : LabT ℚ) : qDE a a = 0 := by
  unfold qDE; ring

/-- C2: for every pool and every k with 0 < k and k at most the pool size,
exact_minimum returns a selection attaining the maximum, over all
k-combinations of pool indices, of the minimum pairwise distance; and that
value dominates the minimum pairwise distance of every length-k in-range
selection whatsoever, in particular of the selection returned by any other
strategy. -/
theorem exact_minimum_optimal {K : Type} [LinearOrderedField K]
    (labs : List (LabT K)) (dE : LabT K → LabT K → K) (n k : ℕ)
    (_hk : 0 < k) (hkn : k ≤ n)
    (hsymm : ∀ a b, dE a b = dE b a)
    (hnonneg : ∀ a b, 0 ≤ dE a b)
    (hself : ∀ a, dE a a = 0) :
    ∃ sel f, exactCore labs dE n k = some (sel, f) ∧
      sel ∈ combos k (List.range n) ∧ f = calcMin labs dE sel ∧
      (∀ c ∈ combos k (List.range n), calcMin labs dE c ≤ f) ∧
      (∀ s : List ℕ, s.length = k → (∀ i ∈ s, i < n) →
        calcMin labs dE s ≤ f) := by
  obtain ⟨cw, hcw⟩ : ∃ c, c ∈ combos k (List.range n) :=
    combos_exists (by simpa using hkn)
  obtain ⟨c0, cs, hL⟩ : ∃ c0 cs, combos k (List.range n) = c0 :: cs := by
    cases hcomb : combos k (List.range n) with
    | nil => rw [hcomb] at hcw; cases hcw
    | cons a b => exact ⟨a, b, rfl⟩
  set r := exactRun labs dE cs (c0, calcMin labs dE c0) with hr
  have hcore : exactCore labs dE n k = some r := by
    unfold exactCore
    rw [hL]
    show cs.foldl (exactStep labs dE) (exactStep labs dE none c0) = some r
    have hfirst : exactStep labs dE none c0 = some (c0, calcMin labs dE c0) := rfl
    rw [hfirst, foldl_exactStep_some]
  obtain ⟨hfit, hmem0⟩ := exactRun_spec labs dE cs (c0, calcMin labs dE c0) rfl
  have hselmem : r.1 ∈ combos k (List.range n) := by
    rw [hL]
    rcases hmem0 with h | h
    · rw [h]; exact List.mem_cons_self _ _
    · exact List.mem_cons_of_mem _ h
  have hub : ∀ c ∈ combos k (List.range n), calcMin labs dE c ≤ r.2 := by
    intro c hc
    rw [hL] at hc
    rcases List.mem_cons.mp hc with rfl | h
    · exact exactRun_snd_mono labs dE cs (c, calcMin labs dE c)
    · exact exactRun_ub labs dE cs _ c h
  have hf_nonneg : (0 : WithTop K) ≤ r.2 := by
    rw [hfit]; exact calcMin_nonneg labs dE hnonneg _
  refine ⟨r.1, r.2, by rw [Prod.mk.eta]; exact hcore, hselmem, hfit, hub, ?_⟩
  intro s hslen hsrange
  by_cases hnd : s.Nodup
  · set s1 := List.insertionSort (· ≤ ·) s with hs1
    have hperm : List.Perm s1 s := List.perm_insertionSort _ s
    have hnd1 : s1.Nodup := hperm.nodup_iff.mpr hnd
    have hsort : s1.Sorted (· ≤ ·) := List.sorted_insertionSort _ s
    have hlt : s1.Pairwise (· < ·) := hsort.lt_of_le hnd1
    have hbound : ∀ x ∈ s1, x < n := fun x hx => hsrange x (hperm.mem_iff.mp hx)
    have hsub : List.Sublist s1 (List.range n) :=
      pairwise_lt_bounded_sublist_range hlt hbound
    have hlen1 : s1.length = k := by rw [hperm.length_eq, hslen]
    have hmem1 : s1 ∈ combos k (List.range n) := mem_combos_of_sublist hsub hlen1
    have hle1 : calcMin labs dE s1 ≤ r.2 := hub s1 hmem1
    rcases calcMin_top_or_attained labs dE s1 with htop | ⟨p, hp, hps⟩
    · have hrt : r.2 = ⊤ := top_le_iff.mp (htop ▸ hle1)
      rw [hrt]; exact le_top
    · have hab : p.1 < p.2 := pairwise_allPairs hlt hp
      have hmm := mem_allPairs hp
      have ha : p.1 ∈ s := hperm.mem_iff.mp hmm.1
      have hb : p.2 ∈ s := hperm.mem_iff.mp hmm.2
      rcases allPairs_pair_of_mem ha hb (Nat.ne_of_lt hab) with hps2 | hps2
      · calc calcMin labs dE s
            ≤ ((dE (labAt labs p.1) (labAt labs p.2) : K) : WithTop K) :=
              calcMin_le_pair labs dE hps2
          _ = calcMin labs dE s1 := hps.symm
          _ ≤ r.2 := hle1
      · calc calcMin labs dE s
            ≤ ((dE (labAt labs p.2) (labAt labs p.1) : K) : WithTop K) :=
              calcMin_le_pair labs dE hps2
          _ = ((dE (labAt labs p.1) (labAt labs p.2) : K) : WithTop K) := by
              rw [hsymm]
          _ = calcMin labs dE s1 := hps.symm
          _ ≤ r.2 := hle1
  · obtain ⟨p, hp, he⟩ := not_nodup_diag_pair hnd
    have h2 : dE (labAt labs p.1) (labAt labs p.2) = 0 := by
      rw [he]; exact hself _
    calc calcMin labs dE s
        ≤ ((dE (labAt labs p.1) (labAt labs p.2) : K) : WithTop K) :=
          calcMin_le_pair labs dE hp
      _ = (0 : WithTop K) := by rw [h2]; exact WithTop.coe_zero
      _ ≤ r.2 := hf_nonneg

/-- Witness for C2 at a concrete pool of three Lab points over the
rationals with k = 2. -/
theorem exact_minimum_optimal_witness :
    ∃ sel f,
      exactCore [((0:ℚ),0,0), (1,0,0), (5,0,0)] qDE 3 2 = some (sel, f) ∧
      sel ∈ combos 2 (List.range 3) ∧
      f = calcMin [((0:ℚ),0,0), (1,0,0), (5,0,0)] qDE sel ∧
      (∀ c ∈ combos 2 (List.range 3),
        calcMin [((0:ℚ),0,0), (1,0,0), (5,0,0)] qDE c ≤ f) ∧
      (∀ s : List ℕ, s.length = 2 → (∀ i ∈ s, i < 3) →
        calcMin [((0:ℚ),0,0), (1,0,0), (5,0,0)] qDE s ≤ f) :=
  exact_minimum_optimal [((0:ℚ),0,0), (1,0,0), (5,0,0)] qDE 3 2
    (by decide) (by decide) qDE_symm qDE_nonneg qDE_self

/-! ## The dispatcher: success shape, errors, pool preservation -/

section DispatchLemmas

variable {K : Type} [LinearOrderedField K]
variable (toLab : ColorT → LabT K) (dE : LabT K → LabT K → K) (expF : K → K)
variable (cfg : Settings K) (o : Oracle K)

theorem runStrategyM_fst (core : ℕ → List (LabT K) → List ℕ) (p : List ColorT) :
    (runStrategyM toLab core p).1 =
      mkResult (sort_colors toLab
        ((core p.length (p.map toLab)).map (fun i => p.getD i (0, 0, 0)))) := rfl

theorem runStrategyM_snd (core : ℕ → List (LabT K) → List ℕ) (p : List ColorT) :
    (runStrategyM toLab core p).2 = p := rfl

theorem dispatch_eq_of_algorithms {colors : List ColorT} {k : ℕ} {name : String}
    {core : ℕ → List (LabT K) → List ℕ}
    (h : ALGORITHMS toLab dE expF cfg o k name = some (runStrategyM toLab core))
    (hk : k ≤ colors.length) :
    select_distinct_colors toLab dE expF cfg o colors k name =
      Except.ok (mkResult (sort_colors toLab
        ((core colors.length (colors.map toLab)).map
          (fun i => colors.getD i (0, 0, 0))))) := by
  unfold select_distinct_colors select_distinct_colorsM
  rw [h]
  show (pmBind readLen _ colors).1 = _
  unfold pmBind readLen
  simp only
  rw [if_neg (by omega)]
  rfl

/-- Every strategy in the ALGORITHMS table leaves the pool state unchanged:
its pool accesses are reads. -/
theorem algorithms_state {k : ℕ} {name : String} {strat : PoolM Result}
    (h : ALGORITHMS toLab dE expF cfg o k name = some strat) :
    ∀ p, (strat p).2 = p := by
  unfold ALGORITHMS at h
  cases hf : (algorithmTable toLab dE expF cfg o k).find? (fun e => e.1 == name) with
  | none => rw [hf] at h; cases h
  | some e =>
    rw [hf] at h
    have he := List.mem_of_find?_eq_some hf
    injection h with h2
    subst h2
    simp only [algorithmTable, List.mem_cons, List.not_mem_nil, or_false] at he
    rcases he with rfl | rfl | rfl | rfl | rfl | rfl | rfl | rfl | rfl | rfl
    all_goals intro p; rfl

end DispatchLemmas

/-! ## Claim C9: the caller-supplied pool is unchanged by every call -/

/-- C9: for every pool, every k, every strategy name, every configuration
and every sequence of random draws, the dispatcher (and therefore every
strategy it runs) returns the caller-supplied pool state unchanged: every
pool access of the source is a read. -/
theorem dispatch_preserves_pool {K : Type} [LinearOrderedField K]
    (toLab : ColorT → LabT K) (dE : LabT K → LabT K → K) (expF : K → K)
    (cfg : Settings K) (o : Oracle K) (pool : List ColorT) (k : ℕ)
    (name : String) :
    (select_distinct_colorsM toLab dE expF cfg o k name pool).2 = pool := by
  unfold select_distinct_colorsM
  cases h : ALGORITHMS toLab dE expF cfg o k name with
  | none => rfl
  | some strat =>
    have hs := algorithms_state toLab dE expF cfg o h
    show (pmBind readLen _ pool).2 = pool
    unfold pmBind readLen
    dsimp only
    by_cases hk : pool.length < k
    · rw [if_pos hk]
      rfl
    · rw [if_neg hk]
      exact hs pool

/-! ## Lemmas on the exception-faithful dispatcher -/

section DispatchELemmas

variable {K : Type} [LinearOrderedField K]
variable (toLab : ColorT → LabT K) (dE : LabT K → LabT K → K) (expF : K → K)
variable (cfg : Settings K) (o : Oracle K)

theorem algorithmsE_eq_none (k : ℕ) {name : String}
    (hname : name ∉ algorithmNames) :
    ALGORITHMSE toLab dE expF cfg o k name = none := by
  simp only [algorithmNames, List.mem_cons, List.not_mem_nil, or_false,
    not_or] at hname
  obtain ⟨h1, h2, h3, h4, h5, h6, h7, h8, h9, h10⟩ := hname
  unfold ALGORITHMSE
  rw [List.find?_eq_none.mpr]
  · rfl
  · intro e he
    simp only [algorithmTableE, List.mem_cons, List.not_mem_nil, or_false] at he
    rcases he with rfl | rfl | rfl | rfl | rfl | rfl | rfl | rfl | rfl | rfl
    all_goals
      simp only [beq_iff_eq]
      intro hh
      first
      | exact h1 hh.symm | exact h2 hh.symm | exact h3 hh.symm
      | exact h4 hh.symm | exact h5 hh.symm | exact h6 hh.symm
      | exact h7 hh.symm | exact h8 hh.symm | exact h9 hh.symm
      | exact h10 hh.symm

theorem algorithmsE_is_some (k : ℕ) {name : String}
    (hname : name ∈ algorithmNames) :
    ∃ strat, ALGORITHMSE toLab dE expF cfg o k name = some strat := by
  simp only [algorithmNames, List.mem_cons, List.not_mem_nil, or_false] at hname
  rcases hname with rfl | rfl | rfl | rfl | rfl | rfl | rfl | rfl | rfl | rfl
  all_goals exact ⟨_, rfl⟩

theorem algorithmsE_shape {k : ℕ} {name : String}
    {strat : List ColorT → Except PyExc Result}
    (h : ALGORITHMSE toLab dE expF cfg o k name = some strat) :
    ∃ coreE : ℕ → List (LabT K) → Except PyExc (List ℕ),
      strat = runStrategyE toLab coreE := by
  unfold ALGORITHMSE at h
  cases hf : (algorithmTableE toLab dE expF cfg o k).find?
      (fun e => e.1 == name) with
  | none => rw [hf] at h; cases h
  | some e =>
    rw [hf] at h
    have he := List.mem_of_find?_eq_some hf
    injection h with h2
    subst h2
    simp only [algorithmTableE, List.mem_cons, List.not_mem_nil, or_false] at he
    rcases he with rfl | rfl | rfl | rfl | rfl | rfl | rfl | rfl | rfl | rfl
    all_goals dsimp only
    all_goals exact ⟨_, rfl⟩

theorem runStrategyE_ok_shape
    {coreE : ℕ → List (LabT K) → Except PyExc (List ℕ)}
    {colors : List ColorT} {r : Result}
    (h : runStrategyE toLab coreE colors = Except.ok r) :
    ∃ raw, r = mkResult (sort_colors toLab raw) := by
  unfold runStrategyE at h
  split at h
  · cases h
  · split at h
    · cases h
    · injection h with h2
      exact ⟨_, h2.symm⟩

theorem dispatchE_ok_of_valid {colors : List ColorT} {k : ℕ} {name : String}
    (hname : name ∈ algorithmNames) (hk : k ≤ colors.length) :
    ∃ inner, select_distinct_colorsE toLab dE expF cfg o colors k name =
      Except.ok inner := by
  obtain ⟨strat, hs⟩ := algorithmsE_is_some toLab dE expF cfg o k hname
  refine ⟨strat colors, ?_⟩
  simp [select_distinct_colorsE, hs, Nat.not_lt.mpr hk]

theorem dispatchE_ok_elim {colors : List ColorT} {k : ℕ} {name : String}
    {inner : Except PyExc Result}
    (h : select_distinct_colorsE toLab dE expF cfg o colors k name =
      Except.ok inner) :
    ∃ strat, ALGORITHMSE toLab dE expF cfg o k name = some strat ∧
      strat colors = inner := by
  cases hs : ALGORITHMSE toLab dE expF cfg o k name with
  | none => simp [select_distinct_colorsE, hs] at h
  | some strat =>
    by_cases hk : colors.length < k
    · simp [select_distinct_colorsE, hs, hk] at h
    · simp [select_distinct_colorsE, hs, hk] at h
      exact ⟨strat, rfl, h⟩

end DispatchELemmas

/-! ## Claim C3: dispatch-boundary error behavior -/

/-- C3 counterexample: a dispatch call with k = 0 (hence k at most 0) on a
nonempty pool does not raise at the boundary: it runs the strategy and
returns a result. The claim that k at most 0 raises InvalidArgument at
the dispatch boundary is false of the code. -/
theorem dispatch_accepts_k_zero :
    select_distinct_colorsE qToLab qDE (fun q => q) {} oracle0
      [(0, 0, 0)] 0 "greedy" =
      Except.ok (Except.ok (mkResult [(0, 0, 0)])) := by
  rfl

/-- C3 amended: a call fails at the dispatch boundary (before any strategy
computation runs) exactly when the strategy name is unrecognized or k
exceeds the pool size; k at most 0 is not rejected there. Exceptions a
strategy itself raises later are not boundary errors: they live in the
inner layer of the embedding, and the boundary outcome for a valid call
is Except.ok whatever the strategy then does. -/
theorem dispatch_error_iff {K : Type} [LinearOrderedField K]
    (toLab : ColorT → LabT K) (dE : LabT K → LabT K → K) (expF : K → K)
    (cfg : Settings K) (o : Oracle K) (colors : List ColorT) (k : ℕ)
    (name : String) :
    (∃ msg, select_distinct_colorsE toLab dE expF cfg o colors k name =
      Except.error msg) ↔ (name ∉ algorithmNames ∨ colors.length < k) := by
  constructor
  · rintro ⟨msg, hmsg⟩
    by_contra hc
    push_neg at hc
    obtain ⟨hmem, hk⟩ := hc
    obtain ⟨inner, hok⟩ := dispatchE_ok_of_valid toLab dE expF cfg o hmem hk
    rw [hok] at hmsg
    cases hmsg
  · rintro (h | h)
    · refine ⟨"Unknown algorithm: " ++ name, ?_⟩
      simp [select_distinct_colorsE, algorithmsE_eq_none toLab dE expF cfg o k h]
    · by_cases hmem : name ∈ algorithmNames
      · obtain ⟨strat, hs⟩ := algorithmsE_is_some toLab dE expF cfg o k hmem
        refine ⟨"Cannot select more colors than available", ?_⟩
        simp [select_distinct_colorsE, hs, h]
      · refine ⟨"Unknown algorithm: " ++ name, ?_⟩
        simp [select_distinct_colorsE,
          algorithmsE_eq_none toLab dE expF cfg o k hmem]

/-- greedy_selection on an empty pool raises ValueError from its first
randint (line 277 of the source): the boundary does not reject the call
(k = 0 is at most the pool size 0), the strategy itself raises. -/
theorem greedy_empty_pool_raises :
    select_distinct_colorsE qToLab qDE (fun q => q) {} oracle0
      [] 0 "greedy" = Except.ok (Except.error PyExc.valueError) := by
  rfl

/-! ## Claim C4: the fields of the returned result -/

/-- C4 counterexample: the result of a concrete valid call holds no
fitness entry at all (the dict has exactly the colors and time keys), so
the claim that every result contains the achieved fitness is false. -/
theorem result_contains_no_fitness :
    select_distinct_colorsE qToLab qDE (fun q => q) {} oracle0
      [(0, 0, 0)] 1 "greedy" =
        Except.ok (Except.ok (mkResult [(0, 0, 0)])) ∧
    lookupR "fitness" (mkResult [(0, 0, 0)]) = none := by
  exact ⟨rfl, rfl⟩

/-- C4 amended: whenever the dispatcher returns a result dict (not every
valid input does: some strategies raise on valid inputs, e.g. ant_colony
at k = 1), that dict holds the selected colors under the colors key and
the elapsed milliseconds under the time key, and nothing else: in
particular no fitness value is returned. -/
theorem dispatch_result_fields {K : Type} [LinearOrderedField K]
    (toLab : ColorT → LabT K) (dE : LabT K → LabT K → K) (expF : K → K)
    (cfg : Settings K) (o : Oracle K) (colors : List ColorT) (k : ℕ)
    (name : String) (r : Result)
    (h : select_distinct_colorsE toLab dE expF cfg o colors k name =
      Except.ok (Except.ok r)) :
    ∃ cs, r = mkResult cs ∧
      lookupR "colors" (mkResult cs) = some (RVal.colorList cs) ∧
      lookupR "time" (mkResult cs) = some RVal.num ∧
      lookupR "fitness" (mkResult cs) = none := by
  obtain ⟨strat, hs, hrun⟩ := dispatchE_ok_elim toLab dE expF cfg o h
  obtain ⟨coreE, rfl⟩ := algorithmsE_shape toLab dE expF cfg o hs
  obtain ⟨raw, hr⟩ := runStrategyE_ok_shape toLab hrun
  exact ⟨sort_colors toLab raw, hr, rfl, rfl, rfl⟩

/-- Witness for C4 at a concrete pool with the greedy strategy. -/
theorem dispatch_result_fields_witness :
    ∃ cs, mkResult [(0, 0, 0)] = mkResult cs ∧
      lookupR "colors" (mkResult cs) = some (RVal.colorList cs) ∧
      lookupR "time" (mkResult cs) = some RVal.num ∧
      lookupR "fitness" (mkResult cs) = none :=
  dispatch_result_fields qToLab qDE (fun q => q) {} oracle0
    [(0, 0, 0), (9, 9, 9)] 1 "greedy" (mkResult [(0, 0, 0)]) (by rfl)

/-! ## Claim C7: canonical output order -/

theorem labKeyLe_total {K : Type} [LinearOrderedField K] (x y : LabT K) :
    labKeyLe x y ∨ labKeyLe y x := by
  unfold labKeyLe
  rcases lt_trichotomy x.1 y.1 with h | h | h
  · exact Or.inr (Or.inl h)
  · rcases lt_trichotomy x.2.1 y.2.1 with h2 | h2 | h2
    · exact Or.inr (Or.inr ⟨h.symm, Or.inl h2⟩)
    · rcases le_total y.2.2 x.2.2 with h3 | h3
      · exact Or.inl (Or.inr ⟨h, Or.inr ⟨h2, h3⟩⟩)
      · exact Or.inr (Or.inr ⟨h.symm, Or.inr ⟨h2.symm, h3⟩⟩)
    · exact Or.inl (Or.inr ⟨h, Or.inl h2⟩)
  · exact Or.inl (Or.inl h)

theorem labKeyLe_trans {K : Type} [LinearOrderedField K] (x y z : LabT K) :
    labKeyLe x y → labKeyLe y z → labKeyLe x z := by
  unfold labKeyLe
  rintro (h1 | ⟨e1, h1⟩) (h2 | ⟨e2, h2⟩)
  · exact Or.inl (lt_trans h2 h1)
  · exact Or.inl (e2 ▸ h1)
  · exact Or.inl (lt_of_lt_of_le h2 (le_of_eq e1.symm))
  · refine Or.inr ⟨e1.trans e2, ?_⟩
    rcases h1 with h1 | ⟨f1, h1⟩ <;> rcases h2 with h2 | ⟨f2, h2⟩
    · exact Or.inl (lt_trans h2 h1)
    · exact Or.inl (f2 ▸ h1)
    · exact Or.inl (lt_of_lt_of_le h2 (le_of_eq f1.symm))
    · exact Or.inr ⟨f1.trans f2, le_trans h2 h1⟩

theorem sort_colors_sorted {K : Type} [LinearOrderedField K]
    (toLab : ColorT → LabT K) (colors : List ColorT) :
    List.Sorted (colorKeyLe toLab) (sort_colors toLab colors) := by
  haveI : IsTotal ColorT (colorKeyLe toLab) :=
    ⟨fun a b => labKeyLe_total (toLab a) (toLab b)⟩
  haveI : IsTrans ColorT (colorKeyLe toLab) :=
    ⟨fun a b c => labKeyLe_trans (toLab a) (toLab b) (toLab c)⟩
  exact List.sorted_insertionSort _ colors


/-- C7 counterexample: a valid input (recognized strategy name, k at most
the pool size) for which no color list is returned at all: ant_colony at
k = 1 raises ValueError from min() over the empty pair sequence of a
length-one tour (line 718 of the source), so no canonically ordered list
exists for this valid input. -/
theorem dispatch_aco_k_one_raises :
    select_distinct_colorsE qToLab qDE (fun q => q) {} oracle0
      [(0, 0, 0), (9, 9, 9)] 1 "ant_colony" =
      Except.ok (Except.error PyExc.valueError) := by
  rfl

/-- C7 amended: whenever the dispatcher does return a result (some valid
inputs instead raise inside the strategy, see the counterexample), its
color list is exactly the canonical sort of the raw selection
materialized by the search (result assembly applies sort_colors once, at
output time), and that list is sorted under the descending Lab key order
and is a permutation of the raw selection. -/
theorem dispatch_output_canonical_order {K : Type} [LinearOrderedField K]
    (toLab : ColorT → LabT K) (dE : LabT K → LabT K → K) (expF : K → K)
    (cfg : Settings K) (o : Oracle K) (colors : List ColorT) (k : ℕ)
    (name : String) (r : Result)
    (h : select_distinct_colorsE toLab dE expF cfg o colors k name =
      Except.ok (Except.ok r)) :
    ∃ raw, r = mkResult (sort_colors toLab raw) ∧
      List.Sorted (colorKeyLe toLab) (sort_colors toLab raw) ∧
      List.Perm (sort_colors toLab raw) raw := by
  obtain ⟨strat, hs, hrun⟩ := dispatchE_ok_elim toLab dE expF cfg o h
  obtain ⟨coreE, rfl⟩ := algorithmsE_shape toLab dE expF cfg o hs
  obtain ⟨raw, hr⟩ := runStrategyE_ok_shape toLab hrun
  exact ⟨raw, hr, sort_colors_sorted toLab raw, List.perm_insertionSort _ raw⟩

/-- Witness for C7 at a concrete pool with the exact_minimum strategy. -/
theorem dispatch_output_canonical_order_witness :
    ∃ raw, mkResult [(1, 2, 3)] = mkResult (sort_colors qToLab raw) ∧
      List.Sorted (colorKeyLe qToLab) (sort_colors qToLab raw) ∧
      List.Perm (sort_colors qToLab raw) raw :=
  dispatch_output_canonical_order qToLab qDE (fun q => q) {} oracle0
    [(1, 2, 3)] 1 "exact_minimum" (mkResult [(1, 2, 3)]) (by rfl)

/-! ## Claim C10: greedy with select_count zero -/

/-- C10: the dispatcher does not reject select_count = 0 (it checks only
select_count greater than the pool size), and greedy then returns exactly
one color: the random first pick enters the selection before the size
bound is ever checked. -/
theorem greedy_k_zero_one_color {K : Type} [LinearOrderedField K]
    (toLab : ColorT → LabT K) (dE : LabT K → LabT K → K) (expF : K → K)
    (cfg : Settings K) (o : Oracle K) (colors : List ColorT)
    (hne : colors ≠ []) :
    select_distinct_colors toLab dE expF cfg o colors 0 "greedy" =
      Except.ok (mkResult
        [colors.getD (o.greedyFirst % colors.length) (0, 0, 0)]) := by
  have hn : 0 < colors.length := List.length_pos.mpr hne
  have h := dispatch_eq_of_algorithms toLab dE expF cfg o
    (show ALGORITHMS toLab dE expF cfg o 0 "greedy" = some (runStrategyM toLab
      (fun n labs => greedyCore labs dE n 0 o.greedyFirst)) by
      simp [ALGORITHMS, algorithmTable, greedy_selection])
    (Nat.zero_le colors.length)
  rw [h]
  have hcore : greedyCore (colors.map toLab) dE colors.length 0 o.greedyFirst =
      [o.greedyFirst % colors.length] := by
    unfold greedyCore greedyLoop pyPop
    dsimp only
    rw [List.getD_eq_getElem?_getD,
      List.getElem?_range (Nat.mod_lt _ hn)]
    rfl
  rw [hcore]
  rfl

/-- Witness for C10 at a concrete singleton pool. -/
theorem greedy_k_zero_one_color_witness :
    (([(5, 5, 5)] : List ColorT) ≠ []) ∧
    select_distinct_colors qToLab qDE (fun q => q) {} oracle0
      [(5, 5, 5)] 0 "greedy" =
      Except.ok (mkResult
        [([(5, 5, 5)] : List ColorT).getD
          (oracle0.greedyFirst % ([(5, 5, 5)] : List ColorT).length)
          (0, 0, 0)]) :=
  ⟨by decide, greedy_k_zero_one_color qToLab qDE (fun q => q) {} oracle0
    [(5, 5, 5)] (by decide)⟩

/-! ## Claim C5: determinism of GA and ACO under fixed random draws -/

/-- C5: with the randomness made explicit as oracles of recorded draws,
two runs of genetic_algorithm with identical draws, and two runs of
ant_colony_optimization with identical draws, return identical selections
and identical tracked best fitness values: the embedded algorithms consume
no state beyond the pool, the configuration and the recorded draws. -/
theorem ga_aco_deterministic {K : Type} [LinearOrderedField K]
    (labs : List (LabT K)) (dE : LabT K → LabT K → K) (n k : ℕ)
    (cfg : Settings K) (o1 o2 : GaOracle K) (p1 p2 : AcoOracle K)
    (hga : o1 = o2) (haco : p1 = p2) :
    gaCore labs dE n k cfg o1 = gaCore labs dE n k cfg o2 ∧
    acoCore labs dE n k cfg p1 = acoCore labs dE n k cfg p2 := by
  subst hga
  subst haco
  exact ⟨rfl, rfl⟩

/-- Witness for C5 at concrete oracles. -/
theorem ga_aco_deterministic_witness :
    gaCore [((0:ℚ),0,0), (1,0,0)] qDE 2 1
      (Settings.mk 1000 (995/1000) (1/10) 1 1 (1/10) 30 1 (7/10) (3/2) (3/2)
        1 (1/10) 1 2 1000 5) oracle0.ga =
    gaCore [((0:ℚ),0,0), (1,0,0)] qDE 2 1
      (Settings.mk 1000 (995/1000) (1/10) 1 1 (1/10) 30 1 (7/10) (3/2) (3/2)
        1 (1/10) 1 2 1000 5) oracle0.ga ∧
    acoCore [((0:ℚ),0,0), (1,0,0)] qDE 2 1
      (Settings.mk 1000 (995/1000) (1/10) 1 1 (1/10) 30 1 (7/10) (3/2) (3/2)
        1 (1/10) 1 2 1000 5) oracle0.aco =
    acoCore [((0:ℚ),0,0), (1,0,0)] qDE 2 1
      (Settings.mk 1000 (995/1000) (1/10) 1 1 (1/10) 30 1 (7/10) (3/2) (3/2)
        1 (1/10) 1 2 1000 5) oracle0.aco :=
  ga_aco_deterministic [((0:ℚ),0,0), (1,0,0)] qDE 2 1 _ oracle0.ga oracle0.ga
    oracle0.aco oracle0.aco rfl rfl

/-! ## Claim C8: the swarm weights have no effect -/

/-- C8: for every pool, k and random draws, any two configurations that
agree on numParticles and iterations give particle_swarm_optimization the
same selection and the same global best fitness: the inertiaWeight,
cognitiveWeight and socialWeight keys are read but never used. -/
theorem pso_weights_irrelevant {K : Type} [LinearOrderedField K]
    (labs : List (LabT K)) (dE : LabT K → LabT K → K) (n k : ℕ)
    (cfg1 cfg2 : Settings K) (o : PsoOracle K)
    (hnp : cfg1.numParticles = cfg2.numParticles)
    (hit : cfg1.iterations = cfg2.iterations) :
    psoCore labs dE n k cfg1 o = psoCore labs dE n k cfg2 o := by
  unfold psoCore
  rw [hnp, hit]

/-- Witness for C8: two configurations differing in all three swarm
weights produce the same run. -/
theorem pso_weights_irrelevant_witness :
    psoCore [((0:ℚ),0,0)] qDE 1 1
      (Settings.mk 1000 (995/1000) (1/10) 100 100 (1/10) 1 1 0 0 0
        20 (1/10) 1 2 1000 5) oracle0.pso =
    psoCore [((0:ℚ),0,0)] qDE 1 1
      (Settings.mk 1000 (995/1000) (1/10) 100 100 (1/10) 1 1 (7/10) (3/2) (3/2)
        20 (1/10) 1 2 1000 5) oracle0.pso :=
  pso_weights_irrelevant [((0:ℚ),0,0)] qDE 1 1 _ _ oracle0.pso rfl rfl

/-! ## Claim C1: selection size and distinctness, and the k-means++ bug -/

/-- C1 (refuting run): when the roulette draw random() returns exactly 0,
the k-means++ index-advancement loop exits immediately at position 0 and
appends an already selected index: on the two-color pool black and white
with k = 2, the selection comes back as the duplicate [0, 0], and the full
dispatch call returns the color black twice.  The selection therefore does
not always consist of k distinct indices. -/
theorem kmeans_roulette_duplicate :
    kmeansCore [((0:ℚ),0,0), (255,255,255)] qDE 2 2 oracle0.km = [0, 0] ∧
    ¬ (kmeansCore [((0:ℚ),0,0), (255,255,255)] qDE 2 2 oracle0.km).Nodup ∧
    select_distinct_colors qToLab qDE (fun q => q) {} oracle0
      [(0, 0, 0), (255, 255, 255)] 2 "kmeans_plus_plus" =
      Except.ok (mkResult [(0, 0, 0), (0, 0, 0)]) := by
  refine ⟨?_, ?_, ?_⟩
  · norm_num [oracle0, kmeansCore, kmGrow, kmStep, kmDistances,
      minDistToCenters, kmRouletteLoop, pyChoice, labAt, qDE,
      show List.range 2 = [0, 1] from rfl]
  · norm_num [oracle0, kmeansCore, kmGrow, kmStep, kmDistances,
      minDistToCenters, kmRouletteLoop, pyChoice, labAt, qDE,
      show List.range 2 = [0, 1] from rfl]
  · have hdisp := dispatch_eq_of_algorithms qToLab qDE (fun q => q) {} oracle0
      (show ALGORITHMS qToLab qDE (fun q => q) {} oracle0 2 "kmeans_plus_plus" =
        some (runStrategyM qToLab
          (fun n labs => kmeansCore labs qDE n 2 oracle0.km)) by
        simp [ALGORITHMS, algorithmTable, kmeans_plus_plus_selection])
      (show 2 ≤ ([(0, 0, 0), (255, 255, 255)] : List ColorT).length by decide)
    rw [hdisp]
    norm_num [oracle0, kmeansCore, kmGrow, kmStep, kmDistances,
      minDistToCenters, kmRouletteLoop, pyChoice, labAt, qDE, qToLab,
      mkResult, sort_colors, colorKeyLe, labKeyLe, List.insertionSort,
      List.orderedInsert, show List.range 2 = [0, 1] from rfl]

/-! ## Claim C6: what the tabu list actually records -/

theorem top_min_eq {γ : Type} [LinearOrder γ] [OrderTop γ] (a : γ) :
    min ⊤ a = a := min_eq_right le_top

/-- C6 (refuting run): on a three-point pool with pairwise distances
d(0,1) = 1, d(0,2) = 100, d(1,2) = 81 and k = 2 with the default tenure 5,
the first tabu_search iteration applies the swap replacing selected index 1
with unselected index 2 (current goes from [0, 1] to [0, 2]), yet the tabu
list after the iteration holds exactly the self-moves (0,0) and (2,2) with
expiry 5: the reverse move (2,1) is not recorded at all, because the source
records the keys (current[i], best[i]) of the new current against the
global best instead of the reverse of the applied swap. -/
theorem tabu_reverse_not_recorded :
    ∃ st, tabuStep [((1:ℚ),2,3), (2,2,3), (11,2,3)] qDE 3 2 5 0
        (TabuState.mk (List.range 2) (List.range 2)
          ((calcMin [((1:ℚ),2,3), (2,2,3), (11,2,3)] qDE (List.range 2) :
            WithTop ℚ) : WithBot (WithTop ℚ)) []) = some st ∧
      st.current = [0, 2] ∧
      st.tabu = [((0, 0), 5), ((2, 2), 5)] ∧
      tabuLookup st.tabu (2, 1) = none := by
  have e1 : qDE ((1:ℚ),2,3) ((2:ℚ),2,3) = 1 := by norm_num [qDE]
  have e2 : qDE ((1:ℚ),2,3) ((11:ℚ),2,3) = 100 := by norm_num [qDE]
  have e3 : qDE ((11:ℚ),2,3) ((2:ℚ),2,3) = 81 := by norm_num [qDE]
  refine ⟨TabuState.mk [0, 2] [0, 2]
    ((((100 : ℚ) : WithTop ℚ)) : WithBot (WithTop ℚ))
    [((0, 0), 5), ((2, 2), 5)], ?_, rfl, rfl, rfl⟩
  norm_num [tabuStep, tabuScan, tabuFree, tabuLookup, tabuInsert, List.set,
    calcMin, allPairs, labAt, e1, e2, e3, top_min_eq, Prod.mk.injEq,
    WithBot.coe_lt_coe, WithTop.coe_lt_coe, WithBot.bot_lt_coe,
    show List.range 2 = [0,1] from rfl, show List.range 3 = [0,1,2] from rfl]
  decide
